import Mathlib

/-!
Verification development for the recipe-management backend.

The data model (`core.models`: `User`, `Tag`, `Ingredient`, `Recipe`) and the
nested-relation reconciler (`recipe.serializers.RecipeSerializer`) are embedded
shallowly: database state is a `DB` record of row lists plus id counters, rows
are plain structures, and the ORM calls used by the code (`get_or_create`,
many-to-many `add` / `clear`, `filter`, `create`) become pure functions on `DB`.
Emails are modelled as lists of characters so that character-level
normalization can be stated.
-/

namespace RecipeApp

/-- A row of the `Tag` model: a name owned by one user. -/
structure Tag where
  id : Nat
  user : Nat
  name : String
  deriving DecidableEq, Repr

/-- A row of the `Ingredient` model: a name owned by one user. -/
structure Ingredient where
  id : Nat
  user : Nat
  name : String
  deriving DecidableEq, Repr

/-- A row of the `Recipe` model.  The many-to-many relations `tags` and
`ingredients` are modelled as the list of related row ids. -/
structure Recipe where
  id : Nat
  user : Nat
  title : String
  time_minutes : Nat
  price : Int
  link : String
  description : String
  steps : String
  tags : List Nat
  ingredients : List Nat
  deriving DecidableEq, Repr

/-- A row of the user model: an id and a (normalized) email. -/
structure User where
  id : Nat
  email : List Char
  deriving DecidableEq, Repr

/-- The database: one list of rows per table plus auto-increment counters. -/
structure DB where
  users : List User
  tags : List Tag
  ingredients : List Ingredient
  recipes : List Recipe
  nextUserId : Nat
  nextTagId : Nat
  nextIngredientId : Nat
  nextRecipeId : Nat
  deriving DecidableEq, Repr

/-- Many-to-many `add`: relation rows are a set, adding an already related id
is a no-op. -/
def addId (l : List Nat) (i : Nat) : List Nat :=
  if i ∈ l then l else l ++ [i]

/-- Apply `f` to the recipe row with id `rid` (helper for instance mutation). -/
def mapRecipe (db : DB) (rid : Nat) (f : Recipe → Recipe) : DB :=
  { db with recipes := db.recipes.map (fun r => if r.id == rid then f r else r) }

/-- `Tag.objects.get_or_create(user=auth_user, **tag)`: look the row up by the
natural key `(user, name)`; create it (with the next id) only if absent. -/
def getOrCreateTag (db : DB) (u : Nat) (n : String) : Tag × DB :=
  match db.tags.find? (fun t => t.user == u && t.name == n) with
  | some t => (t, db)
  | none =>
      let t : Tag := ⟨db.nextTagId, u, n⟩
      (t, { db with tags := db.tags ++ [t], nextTagId := db.nextTagId + 1 })

/-- `Ingredient.objects.get_or_create(user=auth_user, **ingredient)`. -/
def getOrCreateIngredient (db : DB) (u : Nat) (n : String) : Ingredient × DB :=
  match db.ingredients.find? (fun t => t.user == u && t.name == n) with
  | some t => (t, db)
  | none =>
      let t : Ingredient := ⟨db.nextIngredientId, u, n⟩
      (t, { db with ingredients := db.ingredients ++ [t],
                    nextIngredientId := db.nextIngredientId + 1 })

/-- `recipe.tags.add(tag_obj)`. -/
def attachTag (db : DB) (rid tid : Nat) : DB :=
  mapRecipe db rid (fun r => { r with tags := addId r.tags tid })

/-- `recipe.ingredients.add(ingredient_obj)`. -/
def attachIngredient (db : DB) (rid iid : Nat) : DB :=
  mapRecipe db rid (fun r => { r with ingredients := addId r.ingredients iid })

/-- `instance.tags.clear()`. -/
def clearTags (db : DB) (rid : Nat) : DB :=
  mapRecipe db rid (fun r => { r with tags := [] })

/-- `instance.ingredients.clear()`. -/
def clearIngredients (db : DB) (rid : Nat) : DB :=
  mapRecipe db rid (fun r => { r with ingredients := [] })

/-- Validated data of a (possibly partial) recipe update: an absent field is
`none`.  The serializer's writable fields are exactly these — in particular the
owner is not among them (`Meta.fields` has no `user` entry). -/
structure UpdateData where
  title : Option String := none
  time_minutes : Option Nat := none
  price : Option Int := none
  link : Option String := none
  description : Option String := none
  steps : Option String := none
  tags : Option (List String) := none
  ingredients : Option (List String) := none
  deriving DecidableEq, Repr

/-- Validated data of a recipe create; the source pops `tags` and
`ingredients` with default `[]`. -/
structure CreateData where
  title : String
  time_minutes : Nat
  price : Int
  link : String
  description : String
  steps : String
  tags : List String := []
  ingredients : List String := []
  deriving DecidableEq, Repr

/-- The `for attr, value in validated_data.items(): setattr(instance, attr,
value)` loop of `RecipeSerializer.update` on the scalar fields. -/
def applyScalars (vd : UpdateData) (r : Recipe) : Recipe :=
  { r with
    title := vd.title.getD r.title
    time_minutes := vd.time_minutes.getD r.time_minutes
    price := vd.price.getD r.price
    link := vd.link.getD r.link
    description := vd.description.getD r.description
    steps := vd.steps.getD r.steps }

namespace RecipeSerializer

/-- `RecipeSerializer._get_or_create_tags(tags, recipe)`: for each submitted
descriptor, get-or-create the tag scoped to the authenticated user `u` and
attach it to recipe `rid`. -/
def get_or_create_tags (u rid : Nat) (db : DB) : List String → DB
  | [] => db
  | n :: ns =>
      let p := getOrCreateTag db u n
      get_or_create_tags u rid (attachTag p.2 rid p.1.id) ns

/-- `RecipeSerializer._get_or_create_ingredients(ingredients, recipe)`. -/
def get_or_create_ingredients (u rid : Nat) (db : DB) : List String → DB
  | [] => db
  | n :: ns =>
      let p := getOrCreateIngredient db u n
      get_or_create_ingredients u rid (attachIngredient p.2 rid p.1.id) ns

/-- `RecipeSerializer.update(instance, validated_data)`: pop `ingredients`; if
present (`is not None`), clear and re-reconcile; then the same for `tags`;
finally set the remaining scalar attributes and save. -/
def update (u : Nat) (db : DB) (rid : Nat) (vd : UpdateData) : DB :=
  let db1 := match vd.ingredients with
    | none => db
    | some ings => get_or_create_ingredients u rid (clearIngredients db rid) ings
  let db2 := match vd.tags with
    | none => db1
    | some ts => get_or_create_tags u rid (clearTags db1 rid) ts
  mapRecipe db2 rid (applyScalars vd)

/-- `RecipeSerializer.create(validated_data)`: pop `tags` and `ingredients`
(default `[]`), create the recipe row for the authenticated user, then run
both reconcilers.  Returns the new recipe's id with the new state. -/
def create (u : Nat) (db : DB) (cd : CreateData) : Nat × DB :=
  let r : Recipe :=
    ⟨db.nextRecipeId, u, cd.title, cd.time_minutes, cd.price, cd.link,
      cd.description, cd.steps, [], []⟩
  let db1 : DB :=
    { db with recipes := db.recipes ++ [r], nextRecipeId := db.nextRecipeId + 1 }
  let db2 := get_or_create_tags u r.id db1 cd.tags
  (r.id, get_or_create_ingredients u r.id db2 cd.ingredients)

end RecipeSerializer

/-- Look a recipe row up by id. -/
def findRecipe (db : DB) (rid : Nat) : Option Recipe :=
  db.recipes.find? (fun r => r.id == rid)

/-- The nested tag representation of `RecipeDetailSerializer` restricted to
the names: each related id is resolved to its row's name. -/
def detailTagNames (db : DB) (r : Recipe) : List String :=
  r.tags.filterMap (fun tid => (db.tags.find? (fun t => t.id == tid)).map Tag.name)

/-- The nested ingredient names of `RecipeDetailSerializer`. -/
def detailIngredientNames (db : DB) (r : Recipe) : List String :=
  r.ingredients.filterMap
    (fun iid => (db.ingredients.find? (fun t => t.id == iid)).map Ingredient.name)

/-- Well-formedness of the tag table: ids below the counter, ids pairwise
distinct, and at most one row per `(owner, name)` pair. -/
def TagsWF (db : DB) : Prop :=
  (∀ t ∈ db.tags, t.id < db.nextTagId) ∧
  db.tags.Pairwise (fun a b => a.id ≠ b.id) ∧
  db.tags.Pairwise (fun a b => ¬(a.user = b.user ∧ a.name = b.name))

/-- Well-formedness of the ingredient table. -/
def IngredientsWF (db : DB) : Prop :=
  (∀ t ∈ db.ingredients, t.id < db.nextIngredientId) ∧
  db.ingredients.Pairwise (fun a b => a.id ≠ b.id) ∧
  db.ingredients.Pairwise (fun a b => ¬(a.user = b.user ∧ a.name = b.name))

/-- Well-formedness of the recipe table: ids below the counter and pairwise
distinct. -/
def RecipesWF (db : DB) : Prop :=
  (∀ r ∈ db.recipes, r.id < db.nextRecipeId) ∧
  db.recipes.Pairwise (fun a b => a.id ≠ b.id)

/-- Database well-formedness. -/
def WF (db : DB) : Prop := TagsWF db ∧ IngredientsWF db ∧ RecipesWF db

instance : DecidablePred TagsWF := fun db => by unfold TagsWF; infer_instance
instance : DecidablePred IngredientsWF := fun db => by unfold IngredientsWF; infer_instance
instance : DecidablePred RecipesWF := fun db => by unfold RecipesWF; infer_instance
instance : DecidablePred WF := fun db => by unfold WF; infer_instance

/-- Split a character list at its last `'@'`, returning the local and domain
portions; `none` when no `'@'` occurs (Python `rsplit("@", 1)`). -/
def splitAtLastAt : List Char → Option (List Char × List Char)
  | [] => none
  | c :: cs =>
      match splitAtLastAt cs with
      | some p => some (c :: p.1, p.2)
      | none => if c = '@' then some ([], cs) else none

/-- Modelled from the spec: `core/models.py` is not under `src/` (only its
tests are), so the user manager's email normalization is taken from the spec —
"domain portion of email is lowercased on user creation; local portion
preserved as submitted".  The domain portion is what follows the last `'@'`;
an email without `'@'` is returned unchanged. -/
def normalize_email (e : List Char) : List Char :=
  match splitAtLastAt e with
  | some p => p.1 ++ '@' :: p.2.map Char.toLower
  | none => e

/-- Modelled from the spec: `core/models.py` is not under `src/`, so
`UserManager.create_user` is taken from the spec — "email required and
non-empty", "Empty email at user creation → rejected with a domain error",
otherwise the user is stored with the normalized email. -/
def create_user (db : DB) (email : List Char) : Except String (User × DB) :=
  if email = [] then .error "User must have an email address."
  else
    let u : User := ⟨db.nextUserId, normalize_email email⟩
    .ok (u, { db with users := db.users ++ [u], nextUserId := db.nextUserId + 1 })

/-! Endpoints.  `recipe/views.py` is not under `src/` (only its tests are), so
the view layer below is modelled from the spec: every operation works on the
queryset filtered to the authenticated user, a detail request whose id is not
in that queryset answers 404 (here `none`) and changes nothing. -/

/-- Modelled from the spec: the recipe list endpoint, ownership-scoped. -/
def listRecipes (db : DB) (u : Nat) : List Recipe :=
  db.recipes.filter (fun r => r.user == u)

/-- Modelled from the spec: recipe detail lookup inside the requester's
queryset; `none` is a 404 response. -/
def retrieveRecipe (db : DB) (u rid : Nat) : Option Recipe :=
  (listRecipes db u).find? (fun r => r.id == rid)

/-- Modelled from the spec: recipe update endpoint — 404 (`none`, no state
change) when the id is not in the requester's queryset, otherwise the
serializer's update. -/
def updateRecipeEndpoint (db : DB) (u rid : Nat) (vd : UpdateData) : Option DB :=
  match retrieveRecipe db u rid with
  | none => none
  | some _ => some (RecipeSerializer.update u db rid vd)

/-- Modelled from the spec: recipe delete endpoint — 404 (`none`, no state
change) outside the requester's queryset, otherwise the row is removed. -/
def deleteRecipeEndpoint (db : DB) (u rid : Nat) : Option DB :=
  match retrieveRecipe db u rid with
  | none => none
  | some _ =>
      some { db with recipes := db.recipes.filter (fun r => !(r.id == rid && r.user == u)) }

/-- Modelled from the spec: the recipe list endpoint with the optional
`tags` / `ingredients` filters; a comma-separated id-list parameter is
modelled as the list of ids it denotes, an absent parameter as `none`.  A
recipe matches a present filter group when at least one of its relations is
among the listed ids; the result is ownership-scoped. -/
def listRecipesFiltered (db : DB) (u : Nat)
    (tagIds ingIds : Option (List Nat)) : List Recipe :=
  db.recipes.filter (fun r =>
    r.user == u
    && (match tagIds with
        | none => true
        | some ids => r.tags.any (fun t => ids.contains t))
    && (match ingIds with
        | none => true
        | some ids => r.ingredients.any (fun i => ids.contains i)))

/-- Modelled from the spec: the tag list endpoint, ownership-scoped. -/
def listTags (db : DB) (u : Nat) : List Tag :=
  db.tags.filter (fun t => t.user == u)

/-- Modelled from the spec: tag detail lookup; `none` is a 404 response. -/
def retrieveTag (db : DB) (u tid : Nat) : Option Tag :=
  (listTags db u).find? (fun t => t.id == tid)

/-- Modelled from the spec: tag update endpoint (rename). -/
def updateTagEndpoint (db : DB) (u tid : Nat) (newName : String) : Option DB :=
  match retrieveTag db u tid with
  | none => none
  | some _ =>
      some { db with tags :=
              db.tags.map (fun t =>
                if t.id == tid && t.user == u then { t with name := newName } else t) }

/-- Modelled from the spec: tag delete endpoint; deletion removes the row and
cascades only the relation-table rows (the id is detached from recipes). -/
def deleteTagEndpoint (db : DB) (u tid : Nat) : Option DB :=
  match retrieveTag db u tid with
  | none => none
  | some _ =>
      some { db with
        tags := db.tags.filter (fun t => !(t.id == tid && t.user == u)),
        recipes := db.recipes.map (fun r => { r with tags := r.tags.filter (· ≠ tid) }) }

/-- Modelled from the spec: the ingredient list endpoint, ownership-scoped. -/
def listIngredients (db : DB) (u : Nat) : List Ingredient :=
  db.ingredients.filter (fun t => t.user == u)

/-- Modelled from the spec: ingredient detail lookup; `none` is 404. -/
def retrieveIngredient (db : DB) (u iid : Nat) : Option Ingredient :=
  (listIngredients db u).find? (fun t => t.id == iid)

/-- Modelled from the spec: ingredient update endpoint (rename). -/
def updateIngredientEndpoint (db : DB) (u iid : Nat) (newName : String) : Option DB :=
  match retrieveIngredient db u iid with
  | none => none
  | some _ =>
      some { db with ingredients :=
              db.ingredients.map (fun t =>
                if t.id == iid && t.user == u then { t with name := newName } else t) }

/-- Modelled from the spec: ingredient delete endpoint. -/
def deleteIngredientEndpoint (db : DB) (u iid : Nat) : Option DB :=
  match retrieveIngredient db u iid with
  | none => none
  | some _ =>
      some { db with
        ingredients := db.ingredients.filter (fun t => !(t.id == iid && t.user == u)),
        recipes := db.recipes.map
          (fun r => { r with ingredients := r.ingredients.filter (· ≠ iid) }) }

/-- A raw recipe update request body: the writable fields plus an attempted
owner value.  `Meta.fields` of `RecipeSerializer` does not list `user`, so
validation drops that entry. -/
structure UpdateRequest where
  title : Option String := none
  time_minutes : Option Nat := none
  price : Option Int := none
  link : Option String := none
  description : Option String := none
  steps : Option String := none
  tags : Option (List String) := none
  ingredients : Option (List String) := none
  user : Option Nat := none
  deriving DecidableEq, Repr

/-- Serializer validation of an update request: only the fields listed in
`Meta.fields` reach `validated_data`; the submitted owner value is dropped. -/
def validateUpdate (req : UpdateRequest) : UpdateData :=
  { title := req.title
    time_minutes := req.time_minutes
    price := req.price
    link := req.link
    description := req.description
    steps := req.steps
    tags := req.tags
    ingredients := req.ingredients }

/-- One write operation against the recipe API: a create or an update by some
authenticated user. -/
inductive Op where
  | createR (u : Nat) (cd : CreateData)
  | updateR (u : Nat) (rid : Nat) (vd : UpdateData)
  deriving DecidableEq, Repr

/-- Apply one operation to the database. -/
def applyOp (db : DB) : Op → DB
  | .createR u cd => (RecipeSerializer.create u db cd).2
  | .updateR u rid vd => RecipeSerializer.update u db rid vd

/-- Apply a sequence of operations. -/
def applyOps (db : DB) (ops : List Op) : DB := ops.foldl applyOp db

/-- Sample database used to instantiate theorems: one user-1 recipe carrying
one tag and one ingredient, plus a user-2 recipe. -/
def dbW : DB :=
  { users := [⟨7, "user@example.com".toList⟩]
    tags := [⟨0, 1, "Dessert"⟩]
    ingredients := [⟨5, 1, "Garlic"⟩]
    recipes :=
      [⟨0, 1, "Sample Recipe value", 22, 225, "www.example.com/recipe.pdf",
         "Sample Description of recipe", "Sample Recipe Steps", [0], [5]⟩,
       ⟨1, 2, "Other users recipe", 10, 100, "", "", "", [], []⟩]
    nextUserId := 8
    nextTagId := 1
    nextIngredientId := 6
    nextRecipeId := 2 }

/-! ### Generic list lemmas -/

theorem find?_eq_of_pairwise {α : Type} (q : α → Bool) :
    ∀ (l : List α), l.Pairwise (fun a b => ¬(q a = true ∧ q b = true)) →
      ∀ t, t ∈ l → q t = true → l.find? q = some t := by
  intro l
  induction l with
  | nil => intro _ t ht _; exact absurd ht (List.not_mem_nil t)
  | cons a l ih =>
      intro hp t ht hq
      rcases List.mem_cons.mp ht with rfl | htl
      · exact List.find?_cons_of_pos _ hq
      · have ha : ¬ q a = true := fun hqa =>
          (List.pairwise_cons.mp hp).1 t htl ⟨hqa, hq⟩
        rw [List.find?_cons_of_neg _ ha]
        exact ih (List.pairwise_cons.mp hp).2 t htl hq

theorem pairwise_mem_eq {α : Type} {R : α → α → Prop} {l : List α}
    (hs : Symmetric R) (hp : l.Pairwise R) {a b : α} (ha : a ∈ l) (hb : b ∈ l)
    (hR : ¬ R a b) : a = b := by
  by_contra hne
  exact hR (hp.forall hs ha hb hne)

theorem find?_map_key {α : Type} (k : α → Nat) (g : α → α)
    (hg : ∀ a, k (g a) = k a) (x : Nat) :
    ∀ l : List α,
      (l.map g).find? (fun a => k a == x) = (l.find? (fun a => k a == x)).map g := by
  intro l
  induction l with
  | nil => rfl
  | cons a l ih =>
      simp only [List.map_cons, List.find?_cons, hg a]
      cases h : (k a == x) <;> simp [h, ih]

theorem map_if_comp {α : Type} (k : α → Nat) (l : List α) (x : Nat)
    (f₁ f₂ : α → α) (h₁ : ∀ a, k (f₁ a) = k a) :
    (l.map (fun a => if k a == x then f₁ a else a)).map
        (fun a => if k a == x then f₂ a else a)
      = l.map (fun a => if k a == x then f₂ (f₁ a) else a) := by
  rw [List.map_map]
  apply List.map_congr_left
  intro a _
  by_cases h : (k a == x) = true
  · simp [Function.comp, h, h₁]
  · simp [Function.comp, h]

theorem countP_le_one_of_pairwise {α : Type} (q : α → Bool) :
    ∀ (l : List α), l.Pairwise (fun a b => ¬(q a = true ∧ q b = true)) →
      l.countP q ≤ 1 := by
  intro l
  induction l with
  | nil => intro _; simp
  | cons a l ih =>
      intro hp
      by_cases h : q a = true
      · have : l.countP q = 0 := by
          rw [List.countP_eq_zero]
          intro b hb hqb
          exact (List.pairwise_cons.mp hp).1 b hb ⟨h, hqb⟩
        simp [List.countP_cons, h, this]
      · have := ih (List.pairwise_cons.mp hp).2
        simp [List.countP_cons, h]
        omega

/-! ### `addId` (many-to-many `add`) -/

theorem addId_self_mem (l : List Nat) (i : Nat) : i ∈ addId l i := by
  unfold addId
  by_cases h : i ∈ l <;> simp [h]

theorem mem_addId_of_mem {l : List Nat} {a : Nat} (h : a ∈ l) (i : Nat) :
    a ∈ addId l i := by
  unfold addId
  by_cases hi : i ∈ l <;> simp [hi, h]

theorem mem_addId {l : List Nat} {a i : Nat} (h : a ∈ addId l i) :
    a ∈ l ∨ a = i := by
  unfold addId at h
  by_cases hi : i ∈ l
  · simp [hi] at h; exact Or.inl h
  · simp [hi] at h; exact h

theorem addId_of_mem {l : List Nat} {i : Nat} (h : i ∈ l) : addId l i = l := by
  unfold addId; simp [h]

/-! ### `getOrCreateTag` -/

theorem getOrCreateTag_frame (db : DB) (u : Nat) (n : String) :
    (getOrCreateTag db u n).2.recipes = db.recipes ∧
    (getOrCreateTag db u n).2.ingredients = db.ingredients ∧
    (getOrCreateTag db u n).2.users = db.users ∧
    (getOrCreateTag db u n).2.nextIngredientId = db.nextIngredientId ∧
    (getOrCreateTag db u n).2.nextRecipeId = db.nextRecipeId ∧
    (getOrCreateTag db u n).2.nextUserId = db.nextUserId := by
  unfold getOrCreateTag
  cases db.tags.find? (fun t => t.user == u && t.name == n) <;>
    exact ⟨rfl, rfl, rfl, rfl, rfl, rfl⟩

theorem getOrCreateTag_tags_mono {db : DB} {u : Nat} {n : String} {t : Tag}
    (ht : t ∈ db.tags) : t ∈ (getOrCreateTag db u n).2.tags := by
  unfold getOrCreateTag
  cases db.tags.find? (fun t => t.user == u && t.name == n) with
  | none => simp [ht]
  | some _ => exact ht

theorem getOrCreateTag_fst (db : DB) (u : Nat) (n : String) :
    (getOrCreateTag db u n).1.user = u ∧ (getOrCreateTag db u n).1.name = n ∧
    (getOrCreateTag db u n).1 ∈ (getOrCreateTag db u n).2.tags := by
  unfold getOrCreateTag
  cases h : db.tags.find? (fun t => t.user == u && t.name == n) with
  | none => exact ⟨rfl, rfl, by simp⟩
  | some t =>
      have hq := List.find?_some h
      simp only [Bool.and_eq_true, beq_iff_eq] at hq
      exact ⟨hq.1, hq.2, List.mem_of_find?_eq_some h⟩

theorem getOrCreateTag_wf {db : DB} (hwf : TagsWF db) (u : Nat) (n : String) :
    TagsWF (getOrCreateTag db u n).2 := by
  unfold getOrCreateTag
  cases h : db.tags.find? (fun t => t.user == u && t.name == n) with
  | some _ => exact hwf
  | none =>
      obtain ⟨hlt, hid, hkey⟩ := hwf
      have habs : ∀ x ∈ db.tags, ¬(x.user = u ∧ x.name = n) := by
        intro x hx hc
        have := List.find?_eq_none.mp h x hx
        simp [Bool.and_eq_true, beq_iff_eq] at this
        exact absurd hc (by tauto)
      refine ⟨?_, ?_, ?_⟩
      · intro t ht
        rcases List.mem_append.mp ht with hl | hr
        · exact Nat.lt_trans (hlt t hl) (Nat.lt_succ_self _)
        · simp at hr; subst hr; exact Nat.lt_succ_self _
      · rw [List.pairwise_append]
        refine ⟨hid, by simp, ?_⟩
        intro a ha b hb
        simp at hb; subst hb
        exact Nat.ne_of_lt (hlt a ha)
      · rw [List.pairwise_append]
        refine ⟨hkey, by simp, ?_⟩
        intro a ha b hb
        simp at hb; subst hb
        exact habs a ha

theorem getOrCreateTag_existing {db : DB} (hwf : TagsWF db) {u : Nat} {n : String}
    {t : Tag} (ht : t ∈ db.tags) (hu : t.user = u) (hn : t.name = n) :
    getOrCreateTag db u n = (t, db) := by
  have hp : db.tags.Pairwise
      (fun a b => ¬((a.user == u && a.name == n) = true ∧
                    (b.user == u && b.name == n) = true)) := by
    refine hwf.2.2.imp ?_
    intro a b hab hc
    simp only [Bool.and_eq_true, beq_iff_eq] at hc
    exact hab ⟨hc.1.1.trans hc.2.1.symm, hc.1.2.trans hc.2.2.symm⟩
  have hfind := find?_eq_of_pairwise _ db.tags hp t ht
    (by simp [Bool.and_eq_true, beq_iff_eq, hu, hn])
  unfold getOrCreateTag
  rw [hfind]

theorem getOrCreateTag_absent {db : DB} {u : Nat} {n : String}
    (h : ∀ t ∈ db.tags, ¬(t.user = u ∧ t.name = n)) :
    getOrCreateTag db u n =
      (⟨db.nextTagId, u, n⟩,
        { db with tags := db.tags ++ [⟨db.nextTagId, u, n⟩],
                  nextTagId := db.nextTagId + 1 }) := by
  have hfind : db.tags.find? (fun t => t.user == u && t.name == n) = none := by
    rw [List.find?_eq_none]
    intro x hx
    simp only [Bool.and_eq_true, beq_iff_eq, not_and]
    intro h1 h2
    exact h x hx ⟨h1, h2⟩
  unfold getOrCreateTag
  rw [hfind]

/-! ### `getOrCreateIngredient` (mirror) -/

theorem getOrCreateIngredient_frame (db : DB) (u : Nat) (n : String) :
    (getOrCreateIngredient db u n).2.recipes = db.recipes ∧
    (getOrCreateIngredient db u n).2.tags = db.tags ∧
    (getOrCreateIngredient db u n).2.users = db.users ∧
    (getOrCreateIngredient db u n).2.nextTagId = db.nextTagId ∧
    (getOrCreateIngredient db u n).2.nextRecipeId = db.nextRecipeId ∧
    (getOrCreateIngredient db u n).2.nextUserId = db.nextUserId := by
  unfold getOrCreateIngredient
  cases db.ingredients.find? (fun t => t.user == u && t.name == n) <;>
    exact ⟨rfl, rfl, rfl, rfl, rfl, rfl⟩

theorem getOrCreateIngredient_mono {db : DB} {u : Nat} {n : String} {t : Ingredient}
    (ht : t ∈ db.ingredients) : t ∈ (getOrCreateIngredient db u n).2.ingredients := by
  unfold getOrCreateIngredient
  cases db.ingredients.find? (fun t => t.user == u && t.name == n) with
  | none => simp [ht]
  | some _ => exact ht

theorem getOrCreateIngredient_fst (db : DB) (u : Nat) (n : String) :
    (getOrCreateIngredient db u n).1.user = u ∧
    (getOrCreateIngredient db u n).1.name = n ∧
    (getOrCreateIngredient db u n).1 ∈ (getOrCreateIngredient db u n).2.ingredients := by
  unfold getOrCreateIngredient
  cases h : db.ingredients.find? (fun t => t.user == u && t.name == n) with
  | none => exact ⟨rfl, rfl, by simp⟩
  | some t =>
      have hq := List.find?_some h
      simp only [Bool.and_eq_true, beq_iff_eq] at hq
      exact ⟨hq.1, hq.2, List.mem_of_find?_eq_some h⟩

theorem getOrCreateIngredient_wf {db : DB} (hwf : IngredientsWF db)
    (u : Nat) (n : String) : IngredientsWF (getOrCreateIngredient db u n).2 := by
  unfold getOrCreateIngredient
  cases h : db.ingredients.find? (fun t => t.user == u && t.name == n) with
  | some _ => exact hwf
  | none =>
      obtain ⟨hlt, hid, hkey⟩ := hwf
      have habs : ∀ x ∈ db.ingredients, ¬(x.user = u ∧ x.name = n) := by
        intro x hx hc
        have := List.find?_eq_none.mp h x hx
        simp [Bool.and_eq_true, beq_iff_eq] at this
        exact absurd hc (by tauto)
      refine ⟨?_, ?_, ?_⟩
      · intro t ht
        rcases List.mem_append.mp ht with hl | hr
        · exact Nat.lt_trans (hlt t hl) (Nat.lt_succ_self _)
        · simp at hr; subst hr; exact Nat.lt_succ_self _
      · rw [List.pairwise_append]
        refine ⟨hid, by simp, ?_⟩
        intro a ha b hb
        simp at hb; subst hb
        exact Nat.ne_of_lt (hlt a ha)
      · rw [List.pairwise_append]
        refine ⟨hkey, by simp, ?_⟩
        intro a ha b hb
        simp at hb; subst hb
        exact habs a ha

theorem getOrCreateIngredient_existing {db : DB} (hwf : IngredientsWF db)
    {u : Nat} {n : String} {t : Ingredient} (ht : t ∈ db.ingredients)
    (hu : t.user = u) (hn : t.name = n) :
    getOrCreateIngredient db u n = (t, db) := by
  have hp : db.ingredients.Pairwise
      (fun a b => ¬((a.user == u && a.name == n) = true ∧
                    (b.user == u && b.name == n) = true)) := by
    refine hwf.2.2.imp ?_
    intro a b hab hc
    simp only [Bool.and_eq_true, beq_iff_eq] at hc
    exact hab ⟨hc.1.1.trans hc.2.1.symm, hc.1.2.trans hc.2.2.symm⟩
  have hfind := find?_eq_of_pairwise _ db.ingredients hp t ht
    (by simp [Bool.and_eq_true, beq_iff_eq, hu, hn])
  unfold getOrCreateIngredient
  rw [hfind]

/-! ### `mapRecipe` and `findRecipe` -/

theorem mapRecipe_recipes (db : DB) (rid : Nat) (f : Recipe → Recipe) :
    (mapRecipe db rid f).recipes
      = db.recipes.map (fun r => if r.id == rid then f r else r) := rfl

theorem findRecipe_mapRecipe (db : DB) (rid : Nat) (f : Recipe → Recipe)
    (hf : ∀ r, (f r).id = r.id) (x : Nat) :
    findRecipe (mapRecipe db rid f) x
      = (findRecipe db x).map (fun r => if r.id == rid then f r else r) := by
  unfold findRecipe mapRecipe
  exact find?_map_key Recipe.id _
    (fun r => by by_cases h : (r.id == rid) = true <;> simp [h, hf]) x db.recipes

theorem findRecipe_id_eq {db : DB} {rid : Nat} {r : Recipe}
    (hr : findRecipe db rid = some r) : r.id = rid := by
  have h0 : db.recipes.find? (fun x => x.id == rid) = some r := hr
  have := List.find?_some h0
  simpa using this

theorem findRecipe_map_of_eq {db : DB} {rid : Nat} {r : Recipe}
    (hr : findRecipe db rid = some r) (f : Recipe → Recipe)
    (hf : ∀ r, (f r).id = r.id) :
    findRecipe (mapRecipe db rid f) rid = some (f r) := by
  rw [findRecipe_mapRecipe db rid f hf rid, hr]
  simp [findRecipe_id_eq hr]

theorem findRecipe_map_general {db : DB} {rid : Nat} {r : Recipe} {l : List Recipe}
    (hr : findRecipe db rid = some r) (f : Recipe → Recipe)
    (hf : ∀ r, (f r).id = r.id)
    (hl : l = db.recipes.map (fun x => if x.id == rid then f x else x)) :
    l.find? (fun x => x.id == rid) = some (f r) := by
  rw [hl,
    find?_map_key Recipe.id _
      (fun x => by by_cases h : (x.id == rid) = true <;> simp [h, hf]) rid db.recipes]
  rw [show db.recipes.find? (fun x => x.id == rid) = some r from hr]
  simp [findRecipe_id_eq hr]

/-! ### Shape of the reconciler folds

The tag fold rewrites the recipe table by applying, to the recipe with the
given id, a function that only changes the `tags` field; every other table and
counter except the tag table and its counter is untouched.  Mirrored for
ingredients. -/

theorem get_or_create_tags_shape (u rid : Nat) :
    ∀ (ns : List String) (db : DB),
      ∃ g : List Nat → List Nat,
        (RecipeSerializer.get_or_create_tags u rid db ns).recipes
          = db.recipes.map
              (fun r => if r.id == rid then { r with tags := g r.tags } else r) ∧
        (RecipeSerializer.get_or_create_tags u rid db ns).ingredients = db.ingredients ∧
        (RecipeSerializer.get_or_create_tags u rid db ns).users = db.users ∧
        (RecipeSerializer.get_or_create_tags u rid db ns).nextIngredientId
          = db.nextIngredientId ∧
        (RecipeSerializer.get_or_create_tags u rid db ns).nextRecipeId
          = db.nextRecipeId ∧
        (RecipeSerializer.get_or_create_tags u rid db ns).nextUserId = db.nextUserId := by
  intro ns
  induction ns with
  | nil =>
      intro db
      refine ⟨id, ?_, rfl, rfl, rfl, rfl, rfl⟩
      have he : (fun r : Recipe => if r.id == rid then { r with tags := id r.tags } else r)
          = fun r => r := by
        funext r
        by_cases h : (r.id == rid) = true <;> simp [h]
      rw [RecipeSerializer.get_or_create_tags, he]
      simp
  | cons n ns ih =>
      intro db
      obtain ⟨g, hrec, hing, husers, hnii, hnri, hnui⟩ :=
        ih (attachTag (getOrCreateTag db u n).2 rid (getOrCreateTag db u n).1.id)
      obtain ⟨hgr, hgi, hgu, hgni, hgnr, hgnu⟩ := getOrCreateTag_frame db u n
      refine ⟨fun ts => g (addId ts (getOrCreateTag db u n).1.id), ?_, ?_, ?_, ?_, ?_, ?_⟩
      · rw [RecipeSerializer.get_or_create_tags, hrec]
        simp only [attachTag, mapRecipe_recipes, hgr]
        rw [List.map_map]
        apply List.map_congr_left
        intro r _
        by_cases h : (r.id == rid) = true <;> simp [Function.comp, h]
      · rw [RecipeSerializer.get_or_create_tags, hing]; exact hgi
      · rw [RecipeSerializer.get_or_create_tags, husers]; exact hgu
      · rw [RecipeSerializer.get_or_create_tags, hnii]; exact hgni
      · rw [RecipeSerializer.get_or_create_tags, hnri]; exact hgnr
      · rw [RecipeSerializer.get_or_create_tags, hnui]; exact hgnu

theorem get_or_create_ingredients_shape (u rid : Nat) :
    ∀ (ns : List String) (db : DB),
      ∃ g : List Nat → List Nat,
        (RecipeSerializer.get_or_create_ingredients u rid db ns).recipes
          = db.recipes.map
              (fun r => if r.id == rid then { r with ingredients := g r.ingredients } else r) ∧
        (RecipeSerializer.get_or_create_ingredients u rid db ns).tags = db.tags ∧
        (RecipeSerializer.get_or_create_ingredients u rid db ns).users = db.users ∧
        (RecipeSerializer.get_or_create_ingredients u rid db ns).nextTagId
          = db.nextTagId ∧
        (RecipeSerializer.get_or_create_ingredients u rid db ns).nextRecipeId
          = db.nextRecipeId ∧
        (RecipeSerializer.get_or_create_ingredients u rid db ns).nextUserId
          = db.nextUserId := by
  intro ns
  induction ns with
  | nil =>
      intro db
      refine ⟨id, ?_, rfl, rfl, rfl, rfl, rfl⟩
      have he : (fun r : Recipe =>
            if r.id == rid then { r with ingredients := id r.ingredients } else r)
          = fun r => r := by
        funext r
        by_cases h : (r.id == rid) = true <;> simp [h]
      rw [RecipeSerializer.get_or_create_ingredients, he]
      simp
  | cons n ns ih =>
      intro db
      obtain ⟨g, hrec, htag, husers, hnti, hnri, hnui⟩ :=
        ih (attachIngredient (getOrCreateIngredient db u n).2 rid
              (getOrCreateIngredient db u n).1.id)
      obtain ⟨hgr, hgt, hgu, hgnt, hgnr, hgnu⟩ := getOrCreateIngredient_frame db u n
      refine ⟨fun ts => g (addId ts (getOrCreateIngredient db u n).1.id),
        ?_, ?_, ?_, ?_, ?_, ?_⟩
      · rw [RecipeSerializer.get_or_create_ingredients, hrec]
        simp only [attachIngredient, mapRecipe_recipes, hgr]
        rw [List.map_map]
        apply List.map_congr_left
        intro r _
        by_cases h : (r.id == rid) = true <;> simp [Function.comp, h]
      · rw [RecipeSerializer.get_or_create_ingredients, htag]; exact hgt
      · rw [RecipeSerializer.get_or_create_ingredients, husers]; exact hgu
      · rw [RecipeSerializer.get_or_create_ingredients, hnti]; exact hgnt
      · rw [RecipeSerializer.get_or_create_ingredients, hnri]; exact hgnr
      · rw [RecipeSerializer.get_or_create_ingredients, hnui]; exact hgnu

/-! ### Well-formedness through the folds -/

theorem get_or_create_tags_tagswf (u rid : Nat) :
    ∀ (ns : List String) (db : DB), TagsWF db →
      TagsWF (RecipeSerializer.get_or_create_tags u rid db ns) := by
  intro ns
  induction ns with
  | nil => intro db h; exact h
  | cons n ns ih =>
      intro db h
      exact ih _ (getOrCreateTag_wf h u n)

theorem get_or_create_ingredients_ingwf (u rid : Nat) :
    ∀ (ns : List String) (db : DB), IngredientsWF db →
      IngredientsWF (RecipeSerializer.get_or_create_ingredients u rid db ns) := by
  intro ns
  induction ns with
  | nil => intro db h; exact h
  | cons n ns ih =>
      intro db h
      exact ih _ (getOrCreateIngredient_wf h u n)

theorem get_or_create_tags_mono (u rid : Nat) :
    ∀ (ns : List String) (db : DB) (t : Tag), t ∈ db.tags →
      t ∈ (RecipeSerializer.get_or_create_tags u rid db ns).tags := by
  intro ns
  induction ns with
  | nil => intro db t h; exact h
  | cons n ns ih =>
      intro db t h
      exact ih _ t (getOrCreateTag_tags_mono h)

theorem get_or_create_ingredients_mono (u rid : Nat) :
    ∀ (ns : List String) (db : DB) (t : Ingredient), t ∈ db.ingredients →
      t ∈ (RecipeSerializer.get_or_create_ingredients u rid db ns).ingredients := by
  intro ns
  induction ns with
  | nil => intro db t h; exact h
  | cons n ns ih =>
      intro db t h
      exact ih _ t (getOrCreateIngredient_mono h)

/-! ### Characterization of the reconciler folds

After `_get_or_create_tags(names, recipe)`: every submitted name has a row
owned by the requester whose id is attached to the recipe, and every attached
id either was attached before or is the id of a row owned by the requester
with a submitted name. -/

theorem get_or_create_tags_spec (u rid : Nat) :
    ∀ (ns : List String) (db : DB) (r : Recipe),
      TagsWF db → findRecipe db rid = some r →
      ∃ r', findRecipe (RecipeSerializer.get_or_create_tags u rid db ns) rid = some r' ∧
        TagsWF (RecipeSerializer.get_or_create_tags u rid db ns) ∧
        (∀ t ∈ db.tags, t ∈ (RecipeSerializer.get_or_create_tags u rid db ns).tags) ∧
        (∀ tid ∈ r.tags, tid ∈ r'.tags) ∧
        (∀ n ∈ ns, ∃ t ∈ (RecipeSerializer.get_or_create_tags u rid db ns).tags,
            t.user = u ∧ t.name = n ∧ t.id ∈ r'.tags) ∧
        (∀ tid ∈ r'.tags, tid ∈ r.tags ∨
          ∃ t ∈ (RecipeSerializer.get_or_create_tags u rid db ns).tags,
            t.id = tid ∧ t.user = u ∧ t.name ∈ ns) := by
  intro ns
  induction ns with
  | nil =>
      intro db r hwf hr
      exact ⟨r, hr, hwf, fun t ht => ht, fun tid h => h, by simp,
        fun tid h => Or.inl h⟩
  | cons n ns ih =>
      intro db r hwf hr
      obtain ⟨hu0, hn0, hmem0⟩ := getOrCreateTag_fst db u n
      obtain ⟨hgr, -, -, -, -, -⟩ := getOrCreateTag_frame db u n
      have hwf1 : TagsWF (getOrCreateTag db u n).2 := getOrCreateTag_wf hwf u n
      have hr1 : findRecipe (getOrCreateTag db u n).2 rid = some r := by
        show (getOrCreateTag db u n).2.recipes.find? (fun x => x.id == rid) = some r
        rw [hgr]; exact hr
      have hr2 : findRecipe
          (attachTag (getOrCreateTag db u n).2 rid (getOrCreateTag db u n).1.id) rid
          = some { r with tags := addId r.tags (getOrCreateTag db u n).1.id } :=
        findRecipe_map_of_eq hr1 _ (fun x => rfl)
      have hwf2 : TagsWF
          (attachTag (getOrCreateTag db u n).2 rid (getOrCreateTag db u n).1.id) := hwf1
      obtain ⟨r', hfind, hwfF, hmono, hkeep, hnames, horigin⟩ :=
        ih (attachTag (getOrCreateTag db u n).2 rid (getOrCreateTag db u n).1.id)
          { r with tags := addId r.tags (getOrCreateTag db u n).1.id } hwf2 hr2
      have hstep : RecipeSerializer.get_or_create_tags u rid db (n :: ns)
          = RecipeSerializer.get_or_create_tags u rid
              (attachTag (getOrCreateTag db u n).2 rid (getOrCreateTag db u n).1.id)
              ns := rfl
      rw [hstep]
      refine ⟨r', hfind, hwfF, ?_, ?_, ?_, ?_⟩
      · intro t ht
        exact hmono t (getOrCreateTag_tags_mono ht)
      · intro tid h
        exact hkeep tid (mem_addId_of_mem h _)
      · intro m hm
        rcases List.mem_cons.mp hm with heq | hm'
        · rw [heq]
          exact ⟨(getOrCreateTag db u n).1, hmono _ hmem0, hu0, hn0,
            hkeep _ (addId_self_mem _ _)⟩
        · exact hnames m hm'
      · intro tid h
        rcases horigin tid h with hl | ⟨t, htm, hid, huu, hnn⟩
        · rcases mem_addId hl with h1 | h2
          · exact Or.inl h1
          · exact Or.inr ⟨(getOrCreateTag db u n).1, hmono _ hmem0, h2.symm, hu0,
              by simp [hn0]⟩
        · exact Or.inr ⟨t, htm, hid, huu, List.mem_cons_of_mem _ hnn⟩

theorem get_or_create_ingredients_spec (u rid : Nat) :
    ∀ (ns : List String) (db : DB) (r : Recipe),
      IngredientsWF db → findRecipe db rid = some r →
      ∃ r', findRecipe (RecipeSerializer.get_or_create_ingredients u rid db ns) rid
          = some r' ∧
        IngredientsWF (RecipeSerializer.get_or_create_ingredients u rid db ns) ∧
        (∀ t ∈ db.ingredients,
          t ∈ (RecipeSerializer.get_or_create_ingredients u rid db ns).ingredients) ∧
        (∀ iid ∈ r.ingredients, iid ∈ r'.ingredients) ∧
        (∀ n ∈ ns,
          ∃ t ∈ (RecipeSerializer.get_or_create_ingredients u rid db ns).ingredients,
            t.user = u ∧ t.name = n ∧ t.id ∈ r'.ingredients) ∧
        (∀ iid ∈ r'.ingredients, iid ∈ r.ingredients ∨
          ∃ t ∈ (RecipeSerializer.get_or_create_ingredients u rid db ns).ingredients,
            t.id = iid ∧ t.user = u ∧ t.name ∈ ns) := by
  intro ns
  induction ns with
  | nil =>
      intro db r hwf hr
      exact ⟨r, hr, hwf, fun t ht => ht, fun tid h => h, by simp,
        fun tid h => Or.inl h⟩
  | cons n ns ih =>
      intro db r hwf hr
      obtain ⟨hu0, hn0, hmem0⟩ := getOrCreateIngredient_fst db u n
      obtain ⟨hgr, -, -, -, -, -⟩ := getOrCreateIngredient_frame db u n
      have hwf1 : IngredientsWF (getOrCreateIngredient db u n).2 :=
        getOrCreateIngredient_wf hwf u n
      have hr1 : findRecipe (getOrCreateIngredient db u n).2 rid = some r := by
        show (getOrCreateIngredient db u n).2.recipes.find? (fun x => x.id == rid)
          = some r
        rw [hgr]; exact hr
      have hr2 : findRecipe
          (attachIngredient (getOrCreateIngredient db u n).2 rid
            (getOrCreateIngredient db u n).1.id) rid
          = some { r with
              ingredients := addId r.ingredients (getOrCreateIngredient db u n).1.id } :=
        findRecipe_map_of_eq hr1 _ (fun x => rfl)
      have hwf2 : IngredientsWF
          (attachIngredient (getOrCreateIngredient db u n).2 rid
            (getOrCreateIngredient db u n).1.id) := hwf1
      obtain ⟨r', hfind, hwfF, hmono, hkeep, hnames, horigin⟩ :=
        ih (attachIngredient (getOrCreateIngredient db u n).2 rid
              (getOrCreateIngredient db u n).1.id)
          { r with
            ingredients := addId r.ingredients (getOrCreateIngredient db u n).1.id }
          hwf2 hr2
      have hstep : RecipeSerializer.get_or_create_ingredients u rid db (n :: ns)
          = RecipeSerializer.get_or_create_ingredients u rid
              (attachIngredient (getOrCreateIngredient db u n).2 rid
                (getOrCreateIngredient db u n).1.id)
              ns := rfl
      rw [hstep]
      refine ⟨r', hfind, hwfF, ?_, ?_, ?_, ?_⟩
      · intro t ht
        exact hmono t (getOrCreateIngredient_mono ht)
      · intro iid h
        exact hkeep iid (mem_addId_of_mem h _)
      · intro m hm
        rcases List.mem_cons.mp hm with heq | hm'
        · rw [heq]
          exact ⟨(getOrCreateIngredient db u n).1, hmono _ hmem0, hu0, hn0,
            hkeep _ (addId_self_mem _ _)⟩
        · exact hnames m hm'
      · intro iid h
        rcases horigin iid h with hl | ⟨t, htm, hid, huu, hnn⟩
        · rcases mem_addId hl with h1 | h2
          · exact Or.inl h1
          · exact Or.inr ⟨(getOrCreateIngredient db u n).1, hmono _ hmem0, h2.symm, hu0,
              by simp [hn0]⟩
        · exact Or.inr ⟨t, htm, hid, huu, List.mem_cons_of_mem _ hnn⟩

/-! ### Well-formedness transfer along table-preserving steps -/

theorem TagsWF_congr {db db' : DB} (h1 : db'.tags = db.tags)
    (h2 : db'.nextTagId = db.nextTagId) (h : TagsWF db) : TagsWF db' := by
  unfold TagsWF at *
  rw [h1, h2]
  exact h

theorem IngredientsWF_congr {db db' : DB} (h1 : db'.ingredients = db.ingredients)
    (h2 : db'.nextIngredientId = db.nextIngredientId) (h : IngredientsWF db) :
    IngredientsWF db' := by
  unfold IngredientsWF at *
  rw [h1, h2]
  exact h

/-! ### The two relation stages of `RecipeSerializer.update` -/

theorem update_ing_stage (u rid : Nat) (db : DB) (vd : UpdateData) (r : Recipe)
    (hT : TagsWF db) (hI : IngredientsWF db) (hr : findRecipe db rid = some r) :
    ∃ db1 r1,
      (match vd.ingredients with
        | none => db
        | some ms => RecipeSerializer.get_or_create_ingredients u rid
            (clearIngredients db rid) ms) = db1 ∧
      findRecipe db1 rid = some r1 ∧ TagsWF db1 ∧ IngredientsWF db1 ∧
      r1.tags = r.tags ∧
      (vd.ingredients = none → db1 = db ∧ r1 = r) ∧
      (∀ ms, vd.ingredients = some ms →
        (∀ n ∈ ms, ∃ t ∈ db1.ingredients,
            t.user = u ∧ t.name = n ∧ t.id ∈ r1.ingredients) ∧
        (∀ iid ∈ r1.ingredients,
            ∃ t ∈ db1.ingredients, t.id = iid ∧ t.user = u ∧ t.name ∈ ms)) := by
  cases hvi : vd.ingredients with
  | none =>
      refine ⟨db, r, by simp, hr, hT, hI, rfl, fun _ => ⟨rfl, rfl⟩, ?_⟩
      intro ms h
      exact absurd h (by simp)
  | some ms =>
      have hclear : findRecipe (clearIngredients db rid) rid
          = some { r with ingredients := [] } :=
        findRecipe_map_of_eq hr _ (fun x => rfl)
      have hIc : IngredientsWF (clearIngredients db rid) := hI
      obtain ⟨r1, hfind1, hIwf1, -, -, hnames, horigin⟩ :=
        get_or_create_ingredients_spec u rid ms (clearIngredients db rid)
          { r with ingredients := [] } hIc hclear
      obtain ⟨g, hrec, htagsEq, -, hntEq, -, -⟩ :=
        get_or_create_ingredients_shape u rid ms (clearIngredients db rid)
      have hfind1' :
          findRecipe (RecipeSerializer.get_or_create_ingredients u rid
              (clearIngredients db rid) ms) rid
            = some { { r with ingredients := [] } with
                ingredients := g ({ r with ingredients := [] } : Recipe).ingredients } :=
        findRecipe_map_general hclear
          (fun x => { x with ingredients := g x.ingredients }) (fun x => rfl) hrec
      have hr1eq : r1 = { r with ingredients := g [] } := by
        have := hfind1.symm.trans hfind1'
        exact Option.some.inj this
      refine ⟨_, r1, by simp, hfind1,
        TagsWF_congr htagsEq hntEq hT, hIwf1, by rw [hr1eq], ?_, ?_⟩
      · intro h
        exact absurd h (by simp)
      · intro ms' h
        have hms : ms' = ms := (Option.some.inj h).symm
        subst hms
        refine ⟨hnames, ?_⟩
        intro iid hi
        rcases horigin iid hi with hl | hex
        · simp at hl
        · exact hex

theorem update_tag_stage (u rid : Nat) (db1 : DB) (vd : UpdateData) (r1 : Recipe)
    (hT : TagsWF db1) (hr : findRecipe db1 rid = some r1) :
    ∃ db2 r2,
      (match vd.tags with
        | none => db1
        | some ts => RecipeSerializer.get_or_create_tags u rid
            (clearTags db1 rid) ts) = db2 ∧
      findRecipe db2 rid = some r2 ∧ TagsWF db2 ∧
      db2.ingredients = db1.ingredients ∧
      r2.ingredients = r1.ingredients ∧
      (vd.tags = none → db2 = db1 ∧ r2 = r1) ∧
      (∀ ts, vd.tags = some ts →
        (∀ n ∈ ts, ∃ t ∈ db2.tags, t.user = u ∧ t.name = n ∧ t.id ∈ r2.tags) ∧
        (∀ tid ∈ r2.tags,
            ∃ t ∈ db2.tags, t.id = tid ∧ t.user = u ∧ t.name ∈ ts)) := by
  cases hvt : vd.tags with
  | none =>
      refine ⟨db1, r1, by simp, hr, hT, rfl, rfl, fun _ => ⟨rfl, rfl⟩, ?_⟩
      intro ts h
      exact absurd h (by simp)
  | some ts =>
      have hclear : findRecipe (clearTags db1 rid) rid
          = some { r1 with tags := [] } :=
        findRecipe_map_of_eq hr _ (fun x => rfl)
      have hTc : TagsWF (clearTags db1 rid) := hT
      obtain ⟨r2, hfind2, hTwf2, -, -, hnames, horigin⟩ :=
        get_or_create_tags_spec u rid ts (clearTags db1 rid)
          { r1 with tags := [] } hTc hclear
      obtain ⟨g, hrec, hingEq, -, -, -, -⟩ :=
        get_or_create_tags_shape u rid ts (clearTags db1 rid)
      have hfind2' :
          findRecipe (RecipeSerializer.get_or_create_tags u rid
              (clearTags db1 rid) ts) rid
            = some { { r1 with tags := [] } with
                tags := g ({ r1 with tags := [] } : Recipe).tags } :=
        findRecipe_map_general hclear
          (fun x => { x with tags := g x.tags }) (fun x => rfl) hrec
      have hr2eq : r2 = { r1 with tags := g [] } := by
        have := hfind2.symm.trans hfind2'
        exact Option.some.inj this
      refine ⟨_, r2, by simp, hfind2, hTwf2, hingEq, by rw [hr2eq], ?_, ?_⟩
      · intro h
        exact absurd h (by simp)
      · intro ts' h
        have hts : ts' = ts := (Option.some.inj h).symm
        subst hts
        refine ⟨hnames, ?_⟩
        intro tid hi
        rcases horigin tid hi with hl | hex
        · simp at hl
        · exact hex

/-! ### Shape of the whole update

`RecipeSerializer.update` rewrites the recipe table by applying one function to
the row with the updated id; that function never changes the id or the owner,
and leaves every field whose entry is absent from the request unchanged. -/

theorem update_shape (u : Nat) (db : DB) (rid : Nat) (vd : UpdateData) :
    ∃ f : Recipe → Recipe,
      (RecipeSerializer.update u db rid vd).recipes
        = db.recipes.map (fun r => if r.id == rid then f r else r) ∧
      (∀ r, (f r).id = r.id) ∧
      (∀ r, (f r).user = r.user) ∧
      (vd.title = none → ∀ r, (f r).title = r.title) ∧
      (vd.time_minutes = none → ∀ r, (f r).time_minutes = r.time_minutes) ∧
      (vd.price = none → ∀ r, (f r).price = r.price) ∧
      (vd.link = none → ∀ r, (f r).link = r.link) ∧
      (vd.description = none → ∀ r, (f r).description = r.description) ∧
      (vd.steps = none → ∀ r, (f r).steps = r.steps) ∧
      (vd.tags = none → ∀ r, (f r).tags = r.tags) ∧
      (vd.ingredients = none → ∀ r, (f r).ingredients = r.ingredients) := by
  have h1 : ∃ f₁ : Recipe → Recipe,
      (match vd.ingredients with
        | none => db
        | some ms => RecipeSerializer.get_or_create_ingredients u rid
            (clearIngredients db rid) ms).recipes
        = db.recipes.map (fun r => if r.id == rid then f₁ r else r) ∧
      (∀ r, (f₁ r).id = r.id) ∧ (∀ r, (f₁ r).user = r.user) ∧
      (∀ r, (f₁ r).tags = r.tags) ∧ (∀ r, (f₁ r).title = r.title) ∧
      (∀ r, (f₁ r).time_minutes = r.time_minutes) ∧ (∀ r, (f₁ r).price = r.price) ∧
      (∀ r, (f₁ r).link = r.link) ∧ (∀ r, (f₁ r).description = r.description) ∧
      (∀ r, (f₁ r).steps = r.steps) ∧
      (vd.ingredients = none → ∀ r, (f₁ r).ingredients = r.ingredients) := by
    cases hvi : vd.ingredients with
    | none =>
        refine ⟨fun r => r, by simp, fun r => rfl, fun r => rfl, fun r => rfl,
          fun r => rfl, fun r => rfl, fun r => rfl, fun r => rfl, fun r => rfl,
          fun r => rfl, fun _ r => rfl⟩
    | some ms =>
        obtain ⟨g, hrec, -, -, -, -, -⟩ :=
          get_or_create_ingredients_shape u rid ms (clearIngredients db rid)
        refine ⟨fun r => { r with ingredients := g [] }, ?_, fun r => rfl,
          fun r => rfl, fun r => rfl, fun r => rfl, fun r => rfl, fun r => rfl,
          fun r => rfl, fun r => rfl, fun r => rfl, fun h => absurd h (by simp)⟩
        rw [hrec]
        simp only [clearIngredients, mapRecipe_recipes]
        rw [List.map_map]
        apply List.map_congr_left
        intro r _
        by_cases h : (r.id == rid) = true <;> simp [Function.comp, h]
  have h2 : ∀ d : DB, ∃ f₂ : Recipe → Recipe,
      (match vd.tags with
        | none => d
        | some ts => RecipeSerializer.get_or_create_tags u rid
            (clearTags d rid) ts).recipes
        = d.recipes.map (fun r => if r.id == rid then f₂ r else r) ∧
      (∀ r, (f₂ r).id = r.id) ∧ (∀ r, (f₂ r).user = r.user) ∧
      (∀ r, (f₂ r).ingredients = r.ingredients) ∧ (∀ r, (f₂ r).title = r.title) ∧
      (∀ r, (f₂ r).time_minutes = r.time_minutes) ∧ (∀ r, (f₂ r).price = r.price) ∧
      (∀ r, (f₂ r).link = r.link) ∧ (∀ r, (f₂ r).description = r.description) ∧
      (∀ r, (f₂ r).steps = r.steps) ∧
      (vd.tags = none → ∀ r, (f₂ r).tags = r.tags) := by
    intro d
    cases hvt : vd.tags with
    | none =>
        refine ⟨fun r => r, by simp, fun r => rfl, fun r => rfl, fun r => rfl,
          fun r => rfl, fun r => rfl, fun r => rfl, fun r => rfl, fun r => rfl,
          fun r => rfl, fun _ r => rfl⟩
    | some ts =>
        obtain ⟨g, hrec, -, -, -, -, -⟩ :=
          get_or_create_tags_shape u rid ts (clearTags d rid)
        refine ⟨fun r => { r with tags := g [] }, ?_, fun r => rfl,
          fun r => rfl, fun r => rfl, fun r => rfl, fun r => rfl, fun r => rfl,
          fun r => rfl, fun r => rfl, fun r => rfl, fun h => absurd h (by simp)⟩
        rw [hrec]
        simp only [clearTags, mapRecipe_recipes]
        rw [List.map_map]
        apply List.map_congr_left
        intro r _
        by_cases h : (r.id == rid) = true <;> simp [Function.comp, h]
  obtain ⟨f₁, hrec1, h1id, h1user, h1tags, h1title, h1tm, h1price, h1link,
    h1desc, h1steps, h1ings⟩ := h1
  obtain ⟨f₂, hrec2, h2id, h2user, h2ings, h2title, h2tm, h2price, h2link,
    h2desc, h2steps, h2tags⟩ :=
      h2 (match vd.ingredients with
        | none => db
        | some ms => RecipeSerializer.get_or_create_ingredients u rid
            (clearIngredients db rid) ms)
  refine ⟨fun r => applyScalars vd (f₂ (f₁ r)), ?_, ?_, ?_, ?_, ?_, ?_, ?_, ?_, ?_, ?_, ?_⟩
  · show (mapRecipe _ rid (applyScalars vd)).recipes = _
    rw [mapRecipe_recipes, hrec2, hrec1,
      map_if_comp Recipe.id db.recipes rid f₁ f₂ h1id,
      map_if_comp Recipe.id db.recipes rid _ (applyScalars vd)
        (fun r => (h2id (f₁ r)).trans (h1id r))]
  · intro r
    exact (h2id (f₁ r)).trans (h1id r)
  · intro r
    exact ((h2user (f₁ r)).trans (h1user r))
  · intro h r
    have : (applyScalars vd (f₂ (f₁ r))).title = (f₂ (f₁ r)).title := by
      simp [applyScalars, h]
    rw [this, h2title, h1title]
  · intro h r
    have : (applyScalars vd (f₂ (f₁ r))).time_minutes = (f₂ (f₁ r)).time_minutes := by
      simp [applyScalars, h]
    rw [this, h2tm, h1tm]
  · intro h r
    have : (applyScalars vd (f₂ (f₁ r))).price = (f₂ (f₁ r)).price := by
      simp [applyScalars, h]
    rw [this, h2price, h1price]
  · intro h r
    have : (applyScalars vd (f₂ (f₁ r))).link = (f₂ (f₁ r)).link := by
      simp [applyScalars, h]
    rw [this, h2link, h1link]
  · intro h r
    have : (applyScalars vd (f₂ (f₁ r))).description = (f₂ (f₁ r)).description := by
      simp [applyScalars, h]
    rw [this, h2desc, h1desc]
  · intro h r
    have : (applyScalars vd (f₂ (f₁ r))).steps = (f₂ (f₁ r)).steps := by
      simp [applyScalars, h]
    rw [this, h2steps, h1steps]
  · intro h r
    show (applyScalars vd (f₂ (f₁ r))).tags = r.tags
    have : (applyScalars vd (f₂ (f₁ r))).tags = (f₂ (f₁ r)).tags := rfl
    rw [this, h2tags h, h1tags]
  · intro h r
    show (applyScalars vd (f₂ (f₁ r))).ingredients = r.ingredients
    have : (applyScalars vd (f₂ (f₁ r))).ingredients = (f₂ (f₁ r)).ingredients := rfl
    rw [this, h2ings, h1ings h]

/-! ### Symmetry helpers for natural-key uniqueness -/

theorem tag_key_symm :
    Symmetric (fun a b : Tag => ¬(a.user = b.user ∧ a.name = b.name)) := by
  intro a b h hc
  exact h ⟨hc.1.symm, hc.2.symm⟩

theorem ingredient_key_symm :
    Symmetric (fun a b : Ingredient => ¬(a.user = b.user ∧ a.name = b.name)) := by
  intro a b h hc
  exact h ⟨hc.1.symm, hc.2.symm⟩

theorem tag_id_symm : Symmetric (fun a b : Tag => a.id ≠ b.id) := by
  intro a b h hc
  exact h hc.symm

theorem ingredient_id_symm : Symmetric (fun a b : Ingredient => a.id ≠ b.id) := by
  intro a b h hc
  exact h hc.symm

theorem recipe_id_symm : Symmetric (fun a b : Recipe => a.id ≠ b.id) := by
  intro a b h hc
  exact h hc.symm

/-! ### The claims -/

/-- Claim C1: for every recipe update request in which the tags field is
present (including as the empty list), the recipe's attached-tag set
afterwards is exactly the set obtained by get-or-create on each submitted name
scoped to the requester (an id is attached iff it is the id of a stored tag
row owned by the requester whose name was submitted), with all previously
attached tags detached first; in particular an update with tags equal to the
empty list leaves zero attached tags regardless of prior state.  The same
holds for the ingredients field, independently of tags. -/
theorem C1_update_reconciles_relations (db : DB) (u rid : Nat) (vd : UpdateData)
    (r : Recipe) (hwf : WF db) (hr : findRecipe db rid = some r) :
    ∃ r', findRecipe (RecipeSerializer.update u db rid vd) rid = some r' ∧
      (∀ ns, vd.tags = some ns →
        (∀ tid, tid ∈ r'.tags ↔
          ∃ t ∈ (RecipeSerializer.update u db rid vd).tags,
            t.id = tid ∧ t.user = u ∧ t.name ∈ ns) ∧
        (ns = [] → r'.tags = [])) ∧
      (∀ ms, vd.ingredients = some ms →
        (∀ iid, iid ∈ r'.ingredients ↔
          ∃ t ∈ (RecipeSerializer.update u db rid vd).ingredients,
            t.id = iid ∧ t.user = u ∧ t.name ∈ ms) ∧
        (ms = [] → r'.ingredients = [])) := by
  obtain ⟨hT, hI, hR⟩ := hwf
  obtain ⟨db1, r1, hdb1, hr1, hT1, hI1, hrtags1, hnone1, hsome1⟩ :=
    update_ing_stage u rid db vd r hT hI hr
  obtain ⟨db2, r2, hdb2, hr2, hT2, hing2, hring2, hnone2, hsome2⟩ :=
    update_tag_stage u rid db1 vd r1 hT1 hr1
  have hupd : RecipeSerializer.update u db rid vd
      = mapRecipe db2 rid (applyScalars vd) := by
    simp only [RecipeSerializer.update]
    rw [hdb1, hdb2]
  have hfinal : findRecipe (RecipeSerializer.update u db rid vd) rid
      = some (applyScalars vd r2) := by
    rw [hupd]
    exact findRecipe_map_of_eq hr2 _ (fun x => rfl)
  refine ⟨applyScalars vd r2, hfinal, ?_, ?_⟩
  · intro ns hns
    obtain ⟨hnames, horigin⟩ := hsome2 ns hns
    have hTagsTable : (RecipeSerializer.update u db rid vd).tags = db2.tags := by
      rw [hupd]; rfl
    constructor
    · intro tid
      constructor
      · intro h
        have h' : tid ∈ r2.tags := h
        obtain ⟨t, htm, h1, h2, h3⟩ := horigin tid h'
        exact ⟨t, by rw [hTagsTable]; exact htm, h1, h2, h3⟩
      · rintro ⟨t, htm, rfl, hu, hn⟩
        rw [hTagsTable] at htm
        obtain ⟨t', ht'm, hu', hn', hid'⟩ := hnames t.name hn
        have heq : t = t' := by
          apply pairwise_mem_eq tag_key_symm hT2.2.2 htm ht'm
          intro hc
          exact hc ⟨hu.trans hu'.symm, hn'.symm⟩
        show t.id ∈ r2.tags
        rw [heq]
        exact hid'
    · intro hnil
      subst hnil
      rw [List.eq_nil_iff_forall_not_mem]
      intro tid h
      have h' : tid ∈ r2.tags := h
      obtain ⟨t, -, -, -, hn⟩ := horigin tid h'
      simp at hn
  · intro ms hms
    obtain ⟨hnames, horigin⟩ := hsome1 ms hms
    have hIngEq : (applyScalars vd r2).ingredients = r1.ingredients := hring2
    have hIngTable : (RecipeSerializer.update u db rid vd).ingredients
        = db1.ingredients := by
      rw [hupd]
      show db2.ingredients = db1.ingredients
      exact hing2
    constructor
    · intro iid
      constructor
      · intro h
        have h' : iid ∈ r1.ingredients := by rw [← hIngEq]; exact h
        obtain ⟨t, htm, h1, h2, h3⟩ := horigin iid h'
        exact ⟨t, by rw [hIngTable]; exact htm, h1, h2, h3⟩
      · rintro ⟨t, htm, rfl, hu, hn⟩
        rw [hIngTable] at htm
        obtain ⟨t', ht'm, hu', hn', hid'⟩ := hnames t.name hn
        have heq : t = t' := by
          apply pairwise_mem_eq ingredient_key_symm hI1.2.2 htm ht'm
          intro hc
          exact hc ⟨hu.trans hu'.symm, hn'.symm⟩
        show t.id ∈ (applyScalars vd r2).ingredients
        rw [hIngEq, heq]
        exact hid'
    · intro hnil
      subst hnil
      rw [List.eq_nil_iff_forall_not_mem]
      intro iid h
      have h' : iid ∈ r1.ingredients := by rw [← hIngEq]; exact h
      obtain ⟨t, -, -, -, hn⟩ := horigin iid h'
      simp at hn

/-- Claim C4: for every partial update of a recipe, every field not present in
the request body (scalar fields as well as the tags and ingredients relation
sets) retains exactly its prior value after the update. -/
theorem C4_partial_update_frame (db : DB) (u rid : Nat) (vd : UpdateData)
    (r : Recipe) (hr : findRecipe db rid = some r) :
    ∃ r', findRecipe (RecipeSerializer.update u db rid vd) rid = some r' ∧
      (vd.title = none → r'.title = r.title) ∧
      (vd.time_minutes = none → r'.time_minutes = r.time_minutes) ∧
      (vd.price = none → r'.price = r.price) ∧
      (vd.link = none → r'.link = r.link) ∧
      (vd.description = none → r'.description = r.description) ∧
      (vd.steps = none → r'.steps = r.steps) ∧
      (vd.tags = none → r'.tags = r.tags) ∧
      (vd.ingredients = none → r'.ingredients = r.ingredients) := by
  obtain ⟨f, hrec, hid, huser, ht, htm, hp, hl, hd, hs, htags, hings⟩ :=
    update_shape u db rid vd
  have hfind : findRecipe (RecipeSerializer.update u db rid vd) rid = some (f r) :=
    findRecipe_map_general hr f hid hrec
  exact ⟨f r, hfind, fun h => ht h r, fun h => htm h r, fun h => hp h r,
    fun h => hl h r, fun h => hd h r, fun h => hs h r, fun h => htags h r,
    fun h => hings h r⟩

/-- Claim C5: an update request that includes an owner value succeeds without
error and leaves the recipes' owners unchanged: the owner field is not among
the serializer's writable fields, so the attempt is silently dropped at
validation. -/
theorem C5_owner_immutable (db : DB) (u rid : Nat) (req : UpdateRequest)
    (r0 : Recipe) (hret : retrieveRecipe db u rid = some r0) :
    ∃ db', updateRecipeEndpoint db u rid (validateUpdate req) = some db' ∧
      db'.recipes.map Recipe.user = db.recipes.map Recipe.user ∧
      db'.recipes.map Recipe.id = db.recipes.map Recipe.id ∧
      ∀ r, findRecipe db rid = some r →
        ∃ r', findRecipe db' rid = some r' ∧ r'.user = r.user := by
  obtain ⟨f, hrec, hid, huser, -, -, -, -, -, -, -, -⟩ :=
    update_shape u db rid (validateUpdate req)
  refine ⟨RecipeSerializer.update u db rid (validateUpdate req), ?_, ?_, ?_, ?_⟩
  · simp only [updateRecipeEndpoint, hret]
  · rw [hrec, List.map_map]
    apply List.map_congr_left
    intro r _
    by_cases h : (r.id == rid) = true <;> simp [Function.comp, h, huser r]
  · rw [hrec, List.map_map]
    apply List.map_congr_left
    intro r _
    by_cases h : (r.id == rid) = true <;> simp [Function.comp, h, hid r]
  · intro r hr
    exact ⟨f r, findRecipe_map_general hr f hid hrec, huser r⟩

/-! ### Tag-table well-formedness through whole operations -/

theorem ing_match_tagswf (u rid : Nat) (db : DB) (vd : UpdateData)
    (hT : TagsWF db) :
    TagsWF (match vd.ingredients with
      | none => db
      | some ms => RecipeSerializer.get_or_create_ingredients u rid
          (clearIngredients db rid) ms) := by
  cases vd.ingredients with
  | none => exact hT
  | some ms =>
      obtain ⟨g, hrec, htag, husers, hnti, hnri, hnui⟩ :=
        get_or_create_ingredients_shape u rid ms (clearIngredients db rid)
      exact TagsWF_congr htag hnti hT

theorem tag_match_ingwf (u rid : Nat) (db : DB) (vd : UpdateData)
    (hI : IngredientsWF db) :
    IngredientsWF (match vd.tags with
      | none => db
      | some ts => RecipeSerializer.get_or_create_tags u rid
          (clearTags db rid) ts) := by
  cases vd.tags with
  | none => exact hI
  | some ts =>
      obtain ⟨g, hrec, hing, husers, hnii, hnri, hnui⟩ :=
        get_or_create_tags_shape u rid ts (clearTags db rid)
      exact IngredientsWF_congr hing hnii hI

theorem update_tagswf (u : Nat) (db : DB) (rid : Nat) (vd : UpdateData)
    (hT : TagsWF db) : TagsWF (RecipeSerializer.update u db rid vd) := by
  have hM1 := ing_match_tagswf u rid db vd hT
  show TagsWF (mapRecipe _ rid (applyScalars vd))
  cases hvt : vd.tags with
  | none => simpa [RecipeSerializer.update, hvt] using hM1
  | some ts =>
      have := get_or_create_tags_tagswf u rid ts
        (clearTags (match vd.ingredients with
          | none => db
          | some ms => RecipeSerializer.get_or_create_ingredients u rid
              (clearIngredients db rid) ms) rid) hM1
      simpa [RecipeSerializer.update, hvt] using this

theorem update_ingwf (u : Nat) (db : DB) (rid : Nat) (vd : UpdateData)
    (hI : IngredientsWF db) :
    IngredientsWF (RecipeSerializer.update u db rid vd) := by
  have hM1 : IngredientsWF (match vd.ingredients with
      | none => db
      | some ms => RecipeSerializer.get_or_create_ingredients u rid
          (clearIngredients db rid) ms) := by
    cases vd.ingredients with
    | none => exact hI
    | some ms =>
        exact get_or_create_ingredients_ingwf u rid ms (clearIngredients db rid) hI
  have hM2 := tag_match_ingwf u rid
    (match vd.ingredients with
      | none => db
      | some ms => RecipeSerializer.get_or_create_ingredients u rid
          (clearIngredients db rid) ms) vd hM1
  show IngredientsWF (mapRecipe _ rid (applyScalars vd))
  exact hM2

theorem create_tagswf (u : Nat) (db : DB) (cd : CreateData) (hT : TagsWF db) :
    TagsWF (RecipeSerializer.create u db cd).2 := by
  obtain ⟨g, hrec, htag, husers, hnti, hnri, hnui⟩ :=
    get_or_create_ingredients_shape u db.nextRecipeId cd.ingredients
      (RecipeSerializer.get_or_create_tags u db.nextRecipeId
        { db with
            recipes := db.recipes ++
              [⟨db.nextRecipeId, u, cd.title, cd.time_minutes, cd.price, cd.link,
                cd.description, cd.steps, [], []⟩],
            nextRecipeId := db.nextRecipeId + 1 } cd.tags)
  exact TagsWF_congr htag hnti
    (get_or_create_tags_tagswf u db.nextRecipeId cd.tags _ hT)

theorem create_ingwf (u : Nat) (db : DB) (cd : CreateData) (hI : IngredientsWF db) :
    IngredientsWF (RecipeSerializer.create u db cd).2 := by
  obtain ⟨g, hrec, hing, husers, hnii, hnri, hnui⟩ :=
    get_or_create_tags_shape u db.nextRecipeId cd.tags
      { db with
          recipes := db.recipes ++
            [⟨db.nextRecipeId, u, cd.title, cd.time_minutes, cd.price, cd.link,
              cd.description, cd.steps, [], []⟩],
          nextRecipeId := db.nextRecipeId + 1 }
  exact get_or_create_ingredients_ingwf u db.nextRecipeId cd.ingredients _
    (IngredientsWF_congr hing hnii hI)

theorem applyOp_tagswf {db : DB} (hT : TagsWF db) (op : Op) :
    TagsWF (applyOp db op) := by
  cases op with
  | createR u cd => exact create_tagswf u db cd hT
  | updateR u rid vd => exact update_tagswf u db rid vd hT

theorem applyOps_tagswf (ops : List Op) :
    ∀ (db : DB), TagsWF db → TagsWF (applyOps db ops) := by
  induction ops with
  | nil => intro db h; exact h
  | cons op ops ih =>
      intro db h
      exact ih (applyOp db op) (applyOp_tagswf h op)

theorem applyOp_ingwf {db : DB} (hI : IngredientsWF db) (op : Op) :
    IngredientsWF (applyOp db op) := by
  cases op with
  | createR u cd => exact create_ingwf u db cd hI
  | updateR u rid vd => exact update_ingwf u db rid vd hI

theorem applyOps_ingwf (ops : List Op) :
    ∀ (db : DB), IngredientsWF db → IngredientsWF (applyOps db ops) := by
  induction ops with
  | nil => intro db h; exact h
  | cons op ops ih =>
      intro db h
      exact ih (applyOp db op) (applyOp_ingwf h op)

/-- Claim C2: across any sequence of recipe creates and updates, at most one
Tag row exists per `(owner, name)` pair; `get_or_create` reuses the row with
the exact submitted name when one exists for the owner and creates a new row
only when absent. -/
theorem C2_tag_row_uniqueness (db : DB) (ops : List Op) (hT : TagsWF db) :
    (applyOps db ops).tags.Pairwise
        (fun a b => ¬(a.user = b.user ∧ a.name = b.name)) ∧
    (∀ u n (t : Tag), t ∈ db.tags → t.user = u → t.name = n →
      getOrCreateTag db u n = (t, db)) ∧
    (∀ u n, (∀ t ∈ db.tags, ¬(t.user = u ∧ t.name = n)) →
      (getOrCreateTag db u n).2.tags = db.tags ++ [⟨db.nextTagId, u, n⟩]) := by
  refine ⟨(applyOps_tagswf ops db hT).2.2, ?_, ?_⟩
  · intro u n t ht hu hn
    exact getOrCreateTag_existing hT ht hu hn
  · intro u n h
    rw [getOrCreateTag_absent h]

/-! ### Duplicate submitted names are no-ops (support for C10) -/

theorem get_or_create_tags_append (u rid : Nat) :
    ∀ (xs ys : List String) (db : DB),
      RecipeSerializer.get_or_create_tags u rid db (xs ++ ys)
        = RecipeSerializer.get_or_create_tags u rid
            (RecipeSerializer.get_or_create_tags u rid db xs) ys := by
  intro xs
  induction xs with
  | nil => intro ys db; rfl
  | cons x xs ih => intro ys db; exact ih ys _

theorem get_or_create_ingredients_append (u rid : Nat) :
    ∀ (xs ys : List String) (db : DB),
      RecipeSerializer.get_or_create_ingredients u rid db (xs ++ ys)
        = RecipeSerializer.get_or_create_ingredients u rid
            (RecipeSerializer.get_or_create_ingredients u rid db xs) ys := by
  intro xs
  induction xs with
  | nil => intro ys db; rfl
  | cons x xs ih => intro ys db; exact ih ys _

theorem tag_step_preserves_attached (db : DB) (u rid : Nat) (tid : Nat) (m : String)
    (h : ∀ r ∈ db.recipes, r.id = rid → tid ∈ r.tags) :
    ∀ r ∈ (attachTag (getOrCreateTag db u m).2 rid
        (getOrCreateTag db u m).1.id).recipes,
      r.id = rid → tid ∈ r.tags := by
  intro r hr hid
  obtain ⟨hgr, -, -, -, -, -⟩ := getOrCreateTag_frame db u m
  rw [attachTag, mapRecipe_recipes, hgr] at hr
  obtain ⟨r0, hr0, hfr0⟩ := List.mem_map.mp hr
  by_cases hc : (r0.id == rid) = true
  · rw [if_pos hc] at hfr0
    subst hfr0
    exact mem_addId_of_mem (h r0 hr0 (by simpa using hc)) _
  · rw [if_neg hc] at hfr0
    subst hfr0
    exact h r0 hr0 hid

theorem ingredient_step_preserves_attached (db : DB) (u rid : Nat) (iid : Nat)
    (m : String)
    (h : ∀ r ∈ db.recipes, r.id = rid → iid ∈ r.ingredients) :
    ∀ r ∈ (attachIngredient (getOrCreateIngredient db u m).2 rid
        (getOrCreateIngredient db u m).1.id).recipes,
      r.id = rid → iid ∈ r.ingredients := by
  intro r hr hid
  obtain ⟨hgr, -, -, -, -, -⟩ := getOrCreateIngredient_frame db u m
  rw [attachIngredient, mapRecipe_recipes, hgr] at hr
  obtain ⟨r0, hr0, hfr0⟩ := List.mem_map.mp hr
  by_cases hc : (r0.id == rid) = true
  · rw [if_pos hc] at hfr0
    subst hfr0
    exact mem_addId_of_mem (h r0 hr0 (by simpa using hc)) _
  · rw [if_neg hc] at hfr0
    subst hfr0
    exact h r0 hr0 hid

theorem get_or_create_tags_preserves_attached (u rid tid : Nat) :
    ∀ (ns : List String) (db : DB),
      (∀ r ∈ db.recipes, r.id = rid → tid ∈ r.tags) →
      ∀ r ∈ (RecipeSerializer.get_or_create_tags u rid db ns).recipes,
        r.id = rid → tid ∈ r.tags := by
  intro ns
  induction ns with
  | nil => intro db h; exact h
  | cons m ns ih =>
      intro db h
      exact ih _ (tag_step_preserves_attached db u rid tid m h)

theorem get_or_create_ingredients_preserves_attached (u rid iid : Nat) :
    ∀ (ns : List String) (db : DB),
      (∀ r ∈ db.recipes, r.id = rid → iid ∈ r.ingredients) →
      ∀ r ∈ (RecipeSerializer.get_or_create_ingredients u rid db ns).recipes,
        r.id = rid → iid ∈ r.ingredients := by
  intro ns
  induction ns with
  | nil => intro db h; exact h
  | cons m ns ih =>
      intro db h
      exact ih _ (ingredient_step_preserves_attached db u rid iid m h)

theorem get_or_create_tags_attached (u rid : Nat) :
    ∀ (ns : List String) (db : DB), TagsWF db → ∀ n ∈ ns,
      ∃ t ∈ (RecipeSerializer.get_or_create_tags u rid db ns).tags,
        t.user = u ∧ t.name = n ∧
        ∀ r ∈ (RecipeSerializer.get_or_create_tags u rid db ns).recipes,
          r.id = rid → t.id ∈ r.tags := by
  intro ns
  induction ns with
  | nil => intro db _ n hn; simp at hn
  | cons m ns ih =>
      intro db hwf n hn
      rcases List.mem_cons.mp hn with heq | hn'
      · obtain ⟨hu0, hn0, hmem0⟩ := getOrCreateTag_fst db u m
        have hatt : ∀ r ∈ (attachTag (getOrCreateTag db u m).2 rid
            (getOrCreateTag db u m).1.id).recipes,
            r.id = rid → (getOrCreateTag db u m).1.id ∈ r.tags := by
          intro r hr hid
          rw [attachTag, mapRecipe_recipes] at hr
          obtain ⟨r0, hr0, hfr0⟩ := List.mem_map.mp hr
          by_cases hc : (r0.id == rid) = true
          · rw [if_pos hc] at hfr0
            subst hfr0
            exact addId_self_mem _ _
          · rw [if_neg hc] at hfr0
            subst hfr0
            exact absurd (by simp [hid] : (r0.id == rid) = true) hc
        refine ⟨(getOrCreateTag db u m).1,
          get_or_create_tags_mono u rid ns _ _ hmem0, hu0, ?_,
          get_or_create_tags_preserves_attached u rid _ ns _ hatt⟩
        rw [heq]
        exact hn0
      · exact ih (attachTag (getOrCreateTag db u m).2 rid (getOrCreateTag db u m).1.id)
          (getOrCreateTag_wf hwf u m) n hn'

theorem get_or_create_ingredients_attached (u rid : Nat) :
    ∀ (ns : List String) (db : DB), IngredientsWF db → ∀ n ∈ ns,
      ∃ t ∈ (RecipeSerializer.get_or_create_ingredients u rid db ns).ingredients,
        t.user = u ∧ t.name = n ∧
        ∀ r ∈ (RecipeSerializer.get_or_create_ingredients u rid db ns).recipes,
          r.id = rid → t.id ∈ r.ingredients := by
  intro ns
  induction ns with
  | nil => intro db _ n hn; simp at hn
  | cons m ns ih =>
      intro db hwf n hn
      rcases List.mem_cons.mp hn with heq | hn'
      · obtain ⟨hu0, hn0, hmem0⟩ := getOrCreateIngredient_fst db u m
        have hatt : ∀ r ∈ (attachIngredient (getOrCreateIngredient db u m).2 rid
            (getOrCreateIngredient db u m).1.id).recipes,
            r.id = rid → (getOrCreateIngredient db u m).1.id ∈ r.ingredients := by
          intro r hr hid
          rw [attachIngredient, mapRecipe_recipes] at hr
          obtain ⟨r0, hr0, hfr0⟩ := List.mem_map.mp hr
          by_cases hc : (r0.id == rid) = true
          · rw [if_pos hc] at hfr0
            subst hfr0
            exact addId_self_mem _ _
          · rw [if_neg hc] at hfr0
            subst hfr0
            exact absurd (by simp [hid] : (r0.id == rid) = true) hc
        refine ⟨(getOrCreateIngredient db u m).1,
          get_or_create_ingredients_mono u rid ns _ _ hmem0, hu0, ?_,
          get_or_create_ingredients_preserves_attached u rid _ ns _ hatt⟩
        rw [heq]
        exact hn0
      · exact ih (attachIngredient (getOrCreateIngredient db u m).2 rid
            (getOrCreateIngredient db u m).1.id)
          (getOrCreateIngredient_wf hwf u m) n hn'

theorem tag_step_noop (db : DB) (u rid : Nat) (n : String) (hwf : TagsWF db)
    {t : Tag} (htm : t ∈ db.tags) (hu : t.user = u) (hn : t.name = n)
    (hatt : ∀ r ∈ db.recipes, r.id = rid → t.id ∈ r.tags) :
    attachTag (getOrCreateTag db u n).2 rid (getOrCreateTag db u n).1.id = db := by
  rw [getOrCreateTag_existing hwf htm hu hn]
  show attachTag db rid t.id = db
  have hmap : db.recipes.map
      (fun r => if r.id == rid then { r with tags := addId r.tags t.id } else r)
      = db.recipes := by
    have h1 : ∀ r ∈ db.recipes,
        (if r.id == rid then { r with tags := addId r.tags t.id } else r) = r := by
      intro r hr
      by_cases h : (r.id == rid) = true
      · rw [if_pos h, addId_of_mem (hatt r hr (by simpa using h))]
      · rw [if_neg h]
    rw [List.map_congr_left h1]
    simp
  unfold attachTag mapRecipe
  rw [hmap]

theorem ingredient_step_noop (db : DB) (u rid : Nat) (n : String)
    (hwf : IngredientsWF db) {t : Ingredient} (htm : t ∈ db.ingredients)
    (hu : t.user = u) (hn : t.name = n)
    (hatt : ∀ r ∈ db.recipes, r.id = rid → t.id ∈ r.ingredients) :
    attachIngredient (getOrCreateIngredient db u n).2 rid
      (getOrCreateIngredient db u n).1.id = db := by
  rw [getOrCreateIngredient_existing hwf htm hu hn]
  show attachIngredient db rid t.id = db
  have hmap : db.recipes.map
      (fun r => if r.id == rid then { r with ingredients := addId r.ingredients t.id }
        else r)
      = db.recipes := by
    have h1 : ∀ r ∈ db.recipes,
        (if r.id == rid then { r with ingredients := addId r.ingredients t.id } else r)
          = r := by
      intro r hr
      by_cases h : (r.id == rid) = true
      · rw [if_pos h, addId_of_mem (hatt r hr (by simpa using h))]
      · rw [if_neg h]
    rw [List.map_congr_left h1]
    simp
  unfold attachIngredient mapRecipe
  rw [hmap]

theorem get_or_create_tags_dup (u rid : Nat) (db : DB) (pre post : List String)
    (n : String) (hwf : TagsWF db) (hn : n ∈ pre) :
    RecipeSerializer.get_or_create_tags u rid db (pre ++ n :: post)
      = RecipeSerializer.get_or_create_tags u rid db (pre ++ post) := by
  rw [get_or_create_tags_append, get_or_create_tags_append]
  obtain ⟨t, htm, hu, hname, hatt⟩ := get_or_create_tags_attached u rid pre db hwf n hn
  have hwfp : TagsWF (RecipeSerializer.get_or_create_tags u rid db pre) :=
    get_or_create_tags_tagswf u rid pre db hwf
  show RecipeSerializer.get_or_create_tags u rid
      (attachTag (getOrCreateTag (RecipeSerializer.get_or_create_tags u rid db pre) u n).2
        rid (getOrCreateTag (RecipeSerializer.get_or_create_tags u rid db pre) u n).1.id)
      post = _
  rw [tag_step_noop (RecipeSerializer.get_or_create_tags u rid db pre) u rid n hwfp
    htm hu hname hatt]

theorem get_or_create_ingredients_dup (u rid : Nat) (db : DB)
    (pre post : List String) (n : String) (hwf : IngredientsWF db) (hn : n ∈ pre) :
    RecipeSerializer.get_or_create_ingredients u rid db (pre ++ n :: post)
      = RecipeSerializer.get_or_create_ingredients u rid db (pre ++ post) := by
  rw [get_or_create_ingredients_append, get_or_create_ingredients_append]
  obtain ⟨t, htm, hu, hname, hatt⟩ :=
    get_or_create_ingredients_attached u rid pre db hwf n hn
  have hwfp : IngredientsWF (RecipeSerializer.get_or_create_ingredients u rid db pre) :=
    get_or_create_ingredients_ingwf u rid pre db hwf
  show RecipeSerializer.get_or_create_ingredients u rid
      (attachIngredient
        (getOrCreateIngredient
          (RecipeSerializer.get_or_create_ingredients u rid db pre) u n).2
        rid
        (getOrCreateIngredient
          (RecipeSerializer.get_or_create_ingredients u rid db pre) u n).1.id)
      post = _
  rw [ingredient_step_noop (RecipeSerializer.get_or_create_ingredients u rid db pre)
    u rid n hwfp htm hu hname hatt]

theorem get_or_create_tags_countP (u rid : Nat) (ns : List String) (db : DB)
    (hwf : TagsWF db) (n : String) (hn : n ∈ ns) :
    ((RecipeSerializer.get_or_create_tags u rid db ns).tags.countP
        (fun t => t.user == u && t.name == n)) = 1 := by
  have hwfF := get_or_create_tags_tagswf u rid ns db hwf
  obtain ⟨t, htm, hu, hname, -⟩ := get_or_create_tags_attached u rid ns db hwf n hn
  have hle := countP_le_one_of_pairwise (fun t => t.user == u && t.name == n)
    (RecipeSerializer.get_or_create_tags u rid db ns).tags
    (hwfF.2.2.imp (by
      intro a b hab hc
      simp only [Bool.and_eq_true, beq_iff_eq] at hc
      exact hab ⟨hc.1.1.trans hc.2.1.symm, hc.1.2.trans hc.2.2.symm⟩))
  have hpos : 0 < (RecipeSerializer.get_or_create_tags u rid db ns).tags.countP
      (fun t => t.user == u && t.name == n) :=
    List.countP_pos_iff.mpr ⟨t, htm, by simp [hu, hname]⟩
  omega

theorem get_or_create_ingredients_countP (u rid : Nat) (ns : List String) (db : DB)
    (hwf : IngredientsWF db) (n : String) (hn : n ∈ ns) :
    ((RecipeSerializer.get_or_create_ingredients u rid db ns).ingredients.countP
        (fun t => t.user == u && t.name == n)) = 1 := by
  have hwfF := get_or_create_ingredients_ingwf u rid ns db hwf
  obtain ⟨t, htm, hu, hname, -⟩ :=
    get_or_create_ingredients_attached u rid ns db hwf n hn
  have hle := countP_le_one_of_pairwise (fun t => t.user == u && t.name == n)
    (RecipeSerializer.get_or_create_ingredients u rid db ns).ingredients
    (hwfF.2.2.imp (by
      intro a b hab hc
      simp only [Bool.and_eq_true, beq_iff_eq] at hc
      exact hab ⟨hc.1.1.trans hc.2.1.symm, hc.1.2.trans hc.2.2.symm⟩))
  have hpos : 0 < (RecipeSerializer.get_or_create_ingredients u rid db ns).ingredients.countP
      (fun t => t.user == u && t.name == n) :=
    List.countP_pos_iff.mpr ⟨t, htm, by simp [hu, hname]⟩
  omega

/-- Claim C10 (implicit): a recipe create or update whose submitted tag (or
ingredient) list repeats a name is equivalent to submitting the list with the
repeated occurrence removed, and exactly one row per submitted `(owner, name)`
pair exists afterwards. -/
theorem C10_duplicate_descriptors (db : DB) (u rid : Nat) (pre post : List String)
    (n : String) (hwf : WF db) (hn : n ∈ pre) :
    (∀ vd : UpdateData, vd.tags = some (pre ++ n :: post) →
      RecipeSerializer.update u db rid vd
        = RecipeSerializer.update u db rid { vd with tags := some (pre ++ post) }) ∧
    (∀ vd : UpdateData, vd.ingredients = some (pre ++ n :: post) →
      RecipeSerializer.update u db rid vd
        = RecipeSerializer.update u db rid
            { vd with ingredients := some (pre ++ post) }) ∧
    (∀ cd : CreateData, cd.tags = pre ++ n :: post →
      RecipeSerializer.create u db cd
        = RecipeSerializer.create u db { cd with tags := pre ++ post }) ∧
    (∀ cd : CreateData, cd.ingredients = pre ++ n :: post →
      RecipeSerializer.create u db cd
        = RecipeSerializer.create u db { cd with ingredients := pre ++ post }) ∧
    (∀ ns, n ∈ ns →
      ((RecipeSerializer.get_or_create_tags u rid db ns).tags.countP
          (fun t => t.user == u && t.name == n)) = 1) ∧
    (∀ ns, n ∈ ns →
      ((RecipeSerializer.get_or_create_ingredients u rid db ns).ingredients.countP
          (fun t => t.user == u && t.name == n)) = 1) := by
  refine ⟨?_, ?_, ?_, ?_, ?_, ?_⟩
  · intro vd hvt
    have hM1wf : TagsWF (match vd.ingredients with
        | none => db
        | some ms => RecipeSerializer.get_or_create_ingredients u rid
            (clearIngredients db rid) ms) := ing_match_tagswf u rid db vd hwf.1
    have key := get_or_create_tags_dup u rid
      (clearTags (match vd.ingredients with
        | none => db
        | some ms => RecipeSerializer.get_or_create_ingredients u rid
            (clearIngredients db rid) ms) rid) pre post n hM1wf hn
    simp only [RecipeSerializer.update, hvt]
    rw [key]
    rfl
  · intro vd hvi
    have hcwf : IngredientsWF (clearIngredients db rid) := hwf.2.1
    have key := get_or_create_ingredients_dup u rid (clearIngredients db rid)
      pre post n hcwf hn
    simp only [RecipeSerializer.update, hvi]
    rw [key]
    rfl
  · intro cd hct
    have hdb1wf : TagsWF ({ db with
        recipes := db.recipes ++
          [⟨db.nextRecipeId, u, cd.title, cd.time_minutes, cd.price, cd.link,
            cd.description, cd.steps, [], []⟩],
        nextRecipeId := db.nextRecipeId + 1 } : DB) := hwf.1
    have key := get_or_create_tags_dup u db.nextRecipeId
      ({ db with
        recipes := db.recipes ++
          [⟨db.nextRecipeId, u, cd.title, cd.time_minutes, cd.price, cd.link,
            cd.description, cd.steps, [], []⟩],
        nextRecipeId := db.nextRecipeId + 1 } : DB) pre post n hdb1wf hn
    simp only [RecipeSerializer.create, hct]
    rw [key]
  · intro cd hci
    have hdb2wf : IngredientsWF (RecipeSerializer.get_or_create_tags u db.nextRecipeId
        ({ db with
          recipes := db.recipes ++
            [⟨db.nextRecipeId, u, cd.title, cd.time_minutes, cd.price, cd.link,
              cd.description, cd.steps, [], []⟩],
          nextRecipeId := db.nextRecipeId + 1 } : DB) cd.tags) := by
      obtain ⟨g, hrec, hing, husers, hnii, -, -⟩ :=
        get_or_create_tags_shape u db.nextRecipeId cd.tags
          ({ db with
            recipes := db.recipes ++
              [⟨db.nextRecipeId, u, cd.title, cd.time_minutes, cd.price, cd.link,
                cd.description, cd.steps, [], []⟩],
            nextRecipeId := db.nextRecipeId + 1 } : DB)
      exact IngredientsWF_congr hing hnii hwf.2.1
    have key := get_or_create_ingredients_dup u db.nextRecipeId
      (RecipeSerializer.get_or_create_tags u db.nextRecipeId
        ({ db with
          recipes := db.recipes ++
            [⟨db.nextRecipeId, u, cd.title, cd.time_minutes, cd.price, cd.link,
              cd.description, cd.steps, [], []⟩],
          nextRecipeId := db.nextRecipeId + 1 } : DB) cd.tags) pre post n hdb2wf hn
    simp only [RecipeSerializer.create, hci]
    rw [key]
  · intro ns hns
    exact get_or_create_tags_countP u rid ns db hwf.1 n hns
  · intro ns hns
    exact get_or_create_ingredients_countP u rid ns db hwf.2.1 n hns

/-- Claim C3: for users A ≠ B and every entity (recipe, tag, ingredient) owned
by A, B's list request omits it, and B's retrieve, update and delete requests
against its id answer not-found (`none`) and change nothing. -/
theorem C3_ownership_scoping (db : DB) (A B : Nat) (hAB : A ≠ B) (hwf : WF db) :
    (∀ r ∈ db.recipes, r.user = A →
      r ∉ listRecipes db B ∧ retrieveRecipe db B r.id = none ∧
      (∀ vd, updateRecipeEndpoint db B r.id vd = none) ∧
      deleteRecipeEndpoint db B r.id = none) ∧
    (∀ t ∈ db.tags, t.user = A →
      t ∉ listTags db B ∧ retrieveTag db B t.id = none ∧
      (∀ m, updateTagEndpoint db B t.id m = none) ∧
      deleteTagEndpoint db B t.id = none) ∧
    (∀ t ∈ db.ingredients, t.user = A →
      t ∉ listIngredients db B ∧ retrieveIngredient db B t.id = none ∧
      (∀ m, updateIngredientEndpoint db B t.id m = none) ∧
      deleteIngredientEndpoint db B t.id = none) := by
  obtain ⟨hT, hI, hR⟩ := hwf
  refine ⟨?_, ?_, ?_⟩
  · intro r hr hrA
    have hret : retrieveRecipe db B r.id = none := by
      rw [retrieveRecipe, List.find?_eq_none]
      intro x hx
      obtain ⟨hxm, hxB⟩ := List.mem_filter.mp hx
      simp only [beq_iff_eq] at hxB ⊢
      intro hxr
      have hxeq : x = r :=
        pairwise_mem_eq recipe_id_symm hR.2 hxm hr (fun hne => hne hxr)
      rw [hxeq] at hxB
      exact hAB (hrA ▸ hxB.symm ▸ rfl)
    refine ⟨?_, hret, ?_, ?_⟩
    · intro hmem
      obtain ⟨-, hxB⟩ := List.mem_filter.mp hmem
      simp only [beq_iff_eq] at hxB
      exact hAB (hrA ▸ hxB ▸ rfl)
    · intro vd
      simp [updateRecipeEndpoint, hret]
    · simp [deleteRecipeEndpoint, hret]
  · intro t ht htA
    have hret : retrieveTag db B t.id = none := by
      rw [retrieveTag, List.find?_eq_none]
      intro x hx
      obtain ⟨hxm, hxB⟩ := List.mem_filter.mp hx
      simp only [beq_iff_eq] at hxB ⊢
      intro hxr
      have hxeq : x = t :=
        pairwise_mem_eq tag_id_symm hT.2.1 hxm ht (fun hne => hne hxr)
      rw [hxeq] at hxB
      exact hAB (htA ▸ hxB.symm ▸ rfl)
    refine ⟨?_, hret, ?_, ?_⟩
    · intro hmem
      obtain ⟨-, hxB⟩ := List.mem_filter.mp hmem
      simp only [beq_iff_eq] at hxB
      exact hAB (htA ▸ hxB ▸ rfl)
    · intro m
      simp [updateTagEndpoint, hret]
    · simp [deleteTagEndpoint, hret]
  · intro t ht htA
    have hret : retrieveIngredient db B t.id = none := by
      rw [retrieveIngredient, List.find?_eq_none]
      intro x hx
      obtain ⟨hxm, hxB⟩ := List.mem_filter.mp hx
      simp only [beq_iff_eq] at hxB ⊢
      intro hxr
      have hxeq : x = t :=
        pairwise_mem_eq ingredient_id_symm hI.2.1 hxm ht (fun hne => hne hxr)
      rw [hxeq] at hxB
      exact hAB (htA ▸ hxB.symm ▸ rfl)
    refine ⟨?_, hret, ?_, ?_⟩
    · intro hmem
      obtain ⟨-, hxB⟩ := List.mem_filter.mp hmem
      simp only [beq_iff_eq] at hxB
      exact hAB (htA ▸ hxB ▸ rfl)
    · intro m
      simp [updateIngredientEndpoint, hret]
    · simp [deleteIngredientEndpoint, hret]

/-- Claim C7: filtering the recipe list by a list of tag ids (respectively
ingredient ids) yields exactly the requester's recipes having at least one of
the listed relations, each appearing exactly once. -/
theorem C7_recipe_filtering (db : DB) (u : Nat) (tagIds ingIds : List Nat)
    (hwf : WF db) :
    (∀ r, r ∈ listRecipesFiltered db u (some tagIds) none ↔
      r ∈ db.recipes ∧ r.user = u ∧ ∃ tid ∈ r.tags, tid ∈ tagIds) ∧
    (∀ r ∈ listRecipesFiltered db u (some tagIds) none,
      (listRecipesFiltered db u (some tagIds) none).count r = 1) ∧
    (∀ r, r ∈ listRecipesFiltered db u none (some ingIds) ↔
      r ∈ db.recipes ∧ r.user = u ∧ ∃ iid ∈ r.ingredients, iid ∈ ingIds) ∧
    (∀ r ∈ listRecipesFiltered db u none (some ingIds),
      (listRecipesFiltered db u none (some ingIds)).count r = 1) := by
  obtain ⟨hT, hI, hR⟩ := hwf
  have hnodupT : (listRecipesFiltered db u (some tagIds) none).Nodup :=
    (List.Pairwise.sublist (List.filter_sublist _) hR.2).imp
      (fun hab heq => hab (congrArg Recipe.id heq))
  have hnodupI : (listRecipesFiltered db u none (some ingIds)).Nodup :=
    (List.Pairwise.sublist (List.filter_sublist _) hR.2).imp
      (fun hab heq => hab (congrArg Recipe.id heq))
  refine ⟨?_, ?_, ?_, ?_⟩
  · intro r
    simp [listRecipesFiltered, List.mem_filter, beq_iff_eq, List.any_eq_true,
      and_assoc]
  · intro r hr
    exact List.count_eq_one_of_mem hnodupT hr
  · intro r
    simp [listRecipesFiltered, List.mem_filter, beq_iff_eq, List.any_eq_true,
      and_assoc]
  · intro r hr
    exact List.count_eq_one_of_mem hnodupI hr

/-! ### Email normalization (spec-modelled user manager) -/

theorem splitAtLastAt_no_at : ∀ (l : List Char), '@' ∉ l → splitAtLastAt l = none := by
  intro l
  induction l with
  | nil => intro _; rfl
  | cons c cs ih =>
      intro h
      have hc : ¬(c = '@') := fun hc => h (hc ▸ List.mem_cons_self c cs)
      have hcs : '@' ∉ cs := fun hm => h (List.mem_cons_of_mem c hm)
      unfold splitAtLastAt
      rw [ih hcs]
      simp [hc]

theorem splitAtLastAt_append (loc dom : List Char) (hdom : '@' ∉ dom) :
    splitAtLastAt (loc ++ '@' :: dom) = some (loc, dom) := by
  induction loc with
  | nil =>
      show splitAtLastAt ('@' :: dom) = some ([], dom)
      unfold splitAtLastAt
      rw [splitAtLastAt_no_at dom hdom]
      simp
  | cons c cs ih =>
      show splitAtLastAt (c :: (cs ++ '@' :: dom)) = _
      unfold splitAtLastAt
      rw [ih]

theorem normalize_email_split (loc dom : List Char) (hdom : '@' ∉ dom) :
    normalize_email (loc ++ '@' :: dom) = loc ++ '@' :: dom.map Char.toLower := by
  unfold normalize_email
  rw [splitAtLastAt_append loc dom hdom]

/-- Claim C8: creating a user with a non-empty email `local@domain` succeeds
and stores the submitted local portion unchanged, `'@'`, and the domain
portion lowercased. -/
theorem C8_email_normalization (db : DB) (loc dom : List Char)
    (hdom : '@' ∉ dom) :
    ∃ usr db', create_user db (loc ++ '@' :: dom) = .ok (usr, db') ∧
      usr.email = loc ++ '@' :: dom.map Char.toLower ∧ usr ∈ db'.users := by
  have hne : loc ++ '@' :: dom ≠ [] := by simp
  refine ⟨⟨db.nextUserId, normalize_email (loc ++ '@' :: dom)⟩,
    { db with
      users := db.users ++ [⟨db.nextUserId, normalize_email (loc ++ '@' :: dom)⟩],
      nextUserId := db.nextUserId + 1 }, ?_, ?_, ?_⟩
  · unfold create_user
    rw [if_neg hne]
  · exact normalize_email_split loc dom hdom
  · simp

/-- Claim C9: creating a user with an empty email is rejected with a raised
domain error, and no user is created. -/
theorem C9_empty_email_rejected (db : DB) :
    create_user db [] = .error "User must have an email address." ∧
    ∀ usr db', create_user db [] ≠ .ok (usr, db') := by
  refine ⟨rfl, ?_⟩
  intro usr db' h
  simp [create_user] at h

/-- Claim C6: creating a recipe with nested tag and ingredient descriptors and
then reading its detail representation returns the same set of tag names and
the same set of ingredient names as submitted, order-insensitively. -/
theorem C6_create_roundtrip (db : DB) (u : Nat) (cd : CreateData) (hwf : WF db) :
    ∃ r', findRecipe (RecipeSerializer.create u db cd).2
        (RecipeSerializer.create u db cd).1 = some r' ∧
      (∀ n, n ∈ detailTagNames (RecipeSerializer.create u db cd).2 r' ↔ n ∈ cd.tags) ∧
      (∀ n, n ∈ detailIngredientNames (RecipeSerializer.create u db cd).2 r'
          ↔ n ∈ cd.ingredients) := by
  obtain ⟨hT, hI, hR⟩ := hwf
  set r0 : Recipe := ⟨db.nextRecipeId, u, cd.title, cd.time_minutes, cd.price,
    cd.link, cd.description, cd.steps, [], []⟩ with hr0def
  set db1 : DB :=
    { db with recipes := db.recipes ++ [r0], nextRecipeId := db.nextRecipeId + 1 }
    with hdb1def
  set db2 : DB := RecipeSerializer.get_or_create_tags u db.nextRecipeId db1 cd.tags
    with hdb2def
  set db3 : DB :=
    RecipeSerializer.get_or_create_ingredients u db.nextRecipeId db2 cd.ingredients
    with hdb3def
  have hfind0 : findRecipe db1 db.nextRecipeId = some r0 := by
    show (db.recipes ++ [r0]).find? (fun x => x.id == db.nextRecipeId) = some r0
    rw [List.find?_append]
    have hnone : db.recipes.find? (fun x => x.id == db.nextRecipeId) = none := by
      rw [List.find?_eq_none]
      intro x hx
      simp only [beq_iff_eq]
      exact Nat.ne_of_lt (hR.1 x hx)
    rw [hnone]
    simp [hr0def]
  have hT1 : TagsWF db1 := hT
  obtain ⟨r1, hfind1, hTwf2, -, -, hTnames, hTorigin⟩ :=
    get_or_create_tags_spec u db.nextRecipeId cd.tags db1 r0 hT1 hfind0
  obtain ⟨g, hrecT, hingT, -, hniiT, -, -⟩ :=
    get_or_create_tags_shape u db.nextRecipeId cd.tags db1
  have hfind1' :
      findRecipe db2 db.nextRecipeId = some { r0 with tags := g r0.tags } :=
    findRecipe_map_general hfind0 (fun x => { x with tags := g x.tags })
      (fun x => rfl) hrecT
  have hr1eq : r1 = { r0 with tags := g r0.tags } :=
    Option.some.inj (hfind1.symm.trans hfind1')
  have hr1ing : r1.ingredients = [] := by rw [hr1eq]
  have hI2 : IngredientsWF db2 := IngredientsWF_congr hingT hniiT hI
  obtain ⟨r2, hfind2, hIwf3, -, -, hInames, hIorigin⟩ :=
    get_or_create_ingredients_spec u db.nextRecipeId cd.ingredients db2 r1 hI2 hfind1
  obtain ⟨g2, hrecI, htagI, -, hntI, -, -⟩ :=
    get_or_create_ingredients_shape u db.nextRecipeId cd.ingredients db2
  have hfind2' :
      findRecipe db3 db.nextRecipeId
        = some { r1 with ingredients := g2 r1.ingredients } :=
    findRecipe_map_general hfind1 (fun x => { x with ingredients := g2 x.ingredients })
      (fun x => rfl) hrecI
  have hr2eq : r2 = { r1 with ingredients := g2 r1.ingredients } :=
    Option.some.inj (hfind2.symm.trans hfind2')
  have hr2tags : r2.tags = r1.tags := by rw [hr2eq]
  have hc1 : (RecipeSerializer.create u db cd).1 = db.nextRecipeId := rfl
  have hc2 : (RecipeSerializer.create u db cd).2 = db3 := rfl
  rw [hc1, hc2]
  refine ⟨r2, hfind2, ?_, ?_⟩
  · intro n
    constructor
    · intro hmem
      simp only [detailTagNames, List.mem_filterMap] at hmem
      obtain ⟨tid, htid, hf⟩ := hmem
      rw [hr2tags] at htid
      cases hfind : db3.tags.find? (fun t => t.id == tid) with
      | none => rw [hfind] at hf; simp at hf
      | some t =>
          rw [hfind] at hf
          have htname : t.name = n := by simpa using hf
          have htm : t ∈ db3.tags := List.mem_of_find?_eq_some hfind
          have htid_eq : t.id = tid := by simpa using List.find?_some hfind
          rcases hTorigin tid htid with h0 | ⟨t', ht'm, hid', hu', hn'⟩
          · rw [hr0def] at h0; simp at h0
          · have htm2 : t ∈ db2.tags := by rw [← htagI]; exact htm
            have heq : t = t' :=
              pairwise_mem_eq tag_id_symm hTwf2.2.1 htm2 ht'm
                (fun hne => hne (htid_eq.trans hid'.symm))
            rw [← htname, heq]
            exact hn'
    · intro hmem
      obtain ⟨t, htm, hu, hname, hid⟩ := hTnames n hmem
      simp only [detailTagNames, List.mem_filterMap]
      have htm3 : t ∈ db3.tags := by rw [htagI]; exact htm
      have hfindt : db3.tags.find? (fun x => x.id == t.id) = some t := by
        apply find?_eq_of_pairwise _ db3.tags ?_ t htm3 (by simp)
        have hpair : db3.tags.Pairwise (fun a b => a.id ≠ b.id) := by
          rw [htagI]; exact hTwf2.2.1
        refine hpair.imp ?_
        intro a b hab hc
        simp only [beq_iff_eq] at hc
        exact hab (hc.1.trans hc.2.symm)
      refine ⟨t.id, ?_, ?_⟩
      · rw [hr2tags]; exact hid
      · rw [hfindt]
        simp [hname]
  · intro n
    constructor
    · intro hmem
      simp only [detailIngredientNames, List.mem_filterMap] at hmem
      obtain ⟨iid, hiid, hf⟩ := hmem
      cases hfind : db3.ingredients.find? (fun t => t.id == iid) with
      | none => rw [hfind] at hf; simp at hf
      | some t =>
          rw [hfind] at hf
          have htname : t.name = n := by simpa using hf
          have htm : t ∈ db3.ingredients := List.mem_of_find?_eq_some hfind
          have htid_eq : t.id = iid := by simpa using List.find?_some hfind
          rcases hIorigin iid hiid with h0 | ⟨t', ht'm, hid', hu', hn'⟩
          · rw [hr1ing] at h0; simp at h0
          · have heq : t = t' :=
              pairwise_mem_eq ingredient_id_symm hIwf3.2.1 htm ht'm
                (fun hne => hne (htid_eq.trans hid'.symm))
            rw [← htname, heq]
            exact hn'
    · intro hmem
      obtain ⟨t, htm, hu, hname, hid⟩ := hInames n hmem
      simp only [detailIngredientNames, List.mem_filterMap]
      have hfindt : db3.ingredients.find? (fun x => x.id == t.id) = some t := by
        apply find?_eq_of_pairwise _ db3.ingredients ?_ t htm (by simp)
        refine hIwf3.2.1.imp ?_
        intro a b hab hc
        simp only [beq_iff_eq] at hc
        exact hab (hc.1.trans hc.2.symm)
      refine ⟨t.id, hid, ?_⟩
      rw [hfindt]
      simp [hname]

/-! ### Concrete instantiations -/

/-- Witness for C1: updating the sample recipe with `tags = ["Lunch"]` and
`ingredients = []`. -/
theorem C1_update_reconciles_relations_witness :
    WF dbW ∧
    findRecipe dbW 0 = some ⟨0, 1, "Sample Recipe value", 22, 225,
      "www.example.com/recipe.pdf", "Sample Description of recipe",
      "Sample Recipe Steps", [0], [5]⟩ ∧
    (∃ r', findRecipe (RecipeSerializer.update 1 dbW 0
        ({ tags := some ["Lunch"], ingredients := some [] } : UpdateData)) 0
        = some r' ∧
      (∀ ns, ({ tags := some ["Lunch"], ingredients := some [] } : UpdateData).tags
          = some ns →
        (∀ tid, tid ∈ r'.tags ↔
          ∃ t ∈ (RecipeSerializer.update 1 dbW 0
              ({ tags := some ["Lunch"], ingredients := some [] } : UpdateData)).tags,
            t.id = tid ∧ t.user = 1 ∧ t.name ∈ ns) ∧
        (ns = [] → r'.tags = [])) ∧
      (∀ ms, ({ tags := some ["Lunch"], ingredients := some [] } : UpdateData).ingredients
          = some ms →
        (∀ iid, iid ∈ r'.ingredients ↔
          ∃ t ∈ (RecipeSerializer.update 1 dbW 0
              ({ tags := some ["Lunch"], ingredients := some [] } : UpdateData)).ingredients,
            t.id = iid ∧ t.user = 1 ∧ t.name ∈ ms) ∧
        (ms = [] → r'.ingredients = []))) :=
  ⟨by decide, rfl,
    C1_update_reconciles_relations dbW 1 0
      ({ tags := some ["Lunch"], ingredients := some [] } : UpdateData)
      ⟨0, 1, "Sample Recipe value", 22, 225, "www.example.com/recipe.pdf",
        "Sample Description of recipe", "Sample Recipe Steps", [0], [5]⟩
      (by decide) rfl⟩

/-- Witness for C2: a create followed by an update against the sample
database. -/
theorem C2_tag_row_uniqueness_witness :
    TagsWF dbW ∧
    ((applyOps dbW
        [Op.createR 1 ({ title := "Chola Bhatura", time_minutes := 90,
                         price := 170, link := "", description := "d",
                         steps := "s", tags := ["Dessert", "Indian"],
                         ingredients := ["Garlic"] } : CreateData),
         Op.updateR 1 0 ({ tags := some ["Dessert"] } : UpdateData)]).tags.Pairwise
        (fun a b => ¬(a.user = b.user ∧ a.name = b.name)) ∧
      (∀ u n (t : Tag), t ∈ dbW.tags → t.user = u → t.name = n →
        getOrCreateTag dbW u n = (t, dbW)) ∧
      (∀ u n, (∀ t ∈ dbW.tags, ¬(t.user = u ∧ t.name = n)) →
        (getOrCreateTag dbW u n).2.tags = dbW.tags ++ [⟨dbW.nextTagId, u, n⟩])) :=
  ⟨by decide,
    C2_tag_row_uniqueness dbW
      [Op.createR 1 ({ title := "Chola Bhatura", time_minutes := 90,
                       price := 170, link := "", description := "d",
                       steps := "s", tags := ["Dessert", "Indian"],
                       ingredients := ["Garlic"] } : CreateData),
       Op.updateR 1 0 ({ tags := some ["Dessert"] } : UpdateData)]
      (by decide)⟩

/-- Witness for C3: user 2 against user 1's entities in the sample database. -/
theorem C3_ownership_scoping_witness :
    (1 : Nat) ≠ 2 ∧ WF dbW ∧
    ((∀ r ∈ dbW.recipes, r.user = 1 →
        r ∉ listRecipes dbW 2 ∧ retrieveRecipe dbW 2 r.id = none ∧
        (∀ vd, updateRecipeEndpoint dbW 2 r.id vd = none) ∧
        deleteRecipeEndpoint dbW 2 r.id = none) ∧
      (∀ t ∈ dbW.tags, t.user = 1 →
        t ∉ listTags dbW 2 ∧ retrieveTag dbW 2 t.id = none ∧
        (∀ m, updateTagEndpoint dbW 2 t.id m = none) ∧
        deleteTagEndpoint dbW 2 t.id = none) ∧
      (∀ t ∈ dbW.ingredients, t.user = 1 →
        t ∉ listIngredients dbW 2 ∧ retrieveIngredient dbW 2 t.id = none ∧
        (∀ m, updateIngredientEndpoint dbW 2 t.id m = none) ∧
        deleteIngredientEndpoint dbW 2 t.id = none)) :=
  ⟨by decide, by decide, C3_ownership_scoping dbW 1 2 (by decide) (by decide)⟩

/-- Witness for C4: a title-only partial update of the sample recipe. -/
theorem C4_partial_update_frame_witness :
    findRecipe dbW 0 = some ⟨0, 1, "Sample Recipe value", 22, 225,
      "www.example.com/recipe.pdf", "Sample Description of recipe",
      "Sample Recipe Steps", [0], [5]⟩ ∧
    (∃ r', findRecipe (RecipeSerializer.update 1 dbW 0
        ({ title := some "New Recipe Title Update Test" } : UpdateData)) 0
        = some r' ∧
      (({ title := some "New Recipe Title Update Test" } : UpdateData).title = none →
        r'.title = "Sample Recipe value") ∧
      (({ title := some "New Recipe Title Update Test" } : UpdateData).time_minutes
          = none → r'.time_minutes = 22) ∧
      (({ title := some "New Recipe Title Update Test" } : UpdateData).price = none →
        r'.price = 225) ∧
      (({ title := some "New Recipe Title Update Test" } : UpdateData).link = none →
        r'.link = "www.example.com/recipe.pdf") ∧
      (({ title := some "New Recipe Title Update Test" } : UpdateData).description
          = none → r'.description = "Sample Description of recipe") ∧
      (({ title := some "New Recipe Title Update Test" } : UpdateData).steps = none →
        r'.steps = "Sample Recipe Steps") ∧
      (({ title := some "New Recipe Title Update Test" } : UpdateData).tags = none →
        r'.tags = [0]) ∧
      (({ title := some "New Recipe Title Update Test" } : UpdateData).ingredients
          = none → r'.ingredients = [5])) :=
  ⟨rfl,
    C4_partial_update_frame dbW 1 0
      ({ title := some "New Recipe Title Update Test" } : UpdateData)
      ⟨0, 1, "Sample Recipe value", 22, 225, "www.example.com/recipe.pdf",
        "Sample Description of recipe", "Sample Recipe Steps", [0], [5]⟩ rfl⟩

/-- Witness for C5: an update request attempting to hand the sample recipe to
user 2. -/
theorem C5_owner_immutable_witness :
    retrieveRecipe dbW 1 0 = some ⟨0, 1, "Sample Recipe value", 22, 225,
      "www.example.com/recipe.pdf", "Sample Description of recipe",
      "Sample Recipe Steps", [0], [5]⟩ ∧
    (∃ db', updateRecipeEndpoint dbW 1 0
        (validateUpdate ({ user := some 2 } : UpdateRequest)) = some db' ∧
      db'.recipes.map Recipe.user = dbW.recipes.map Recipe.user ∧
      db'.recipes.map Recipe.id = dbW.recipes.map Recipe.id ∧
      ∀ r, findRecipe dbW 0 = some r →
        ∃ r', findRecipe db' 0 = some r' ∧ r'.user = r.user) :=
  ⟨rfl,
    C5_owner_immutable dbW 1 0 ({ user := some 2 } : UpdateRequest)
      ⟨0, 1, "Sample Recipe value", 22, 225, "www.example.com/recipe.pdf",
        "Sample Description of recipe", "Sample Recipe Steps", [0], [5]⟩ rfl⟩

/-- Witness for C6: creating a recipe with one pre-existing and one new tag
name and one pre-existing ingredient name. -/
theorem C6_create_roundtrip_witness :
    WF dbW ∧
    (∃ r', findRecipe
        (RecipeSerializer.create 1 dbW
          ({ title := "Chola Bhatura", time_minutes := 90, price := 170,
             link := "", description := "d", steps := "s",
             tags := ["Dessert", "Breakfast"],
             ingredients := ["Garlic"] } : CreateData)).2
        (RecipeSerializer.create 1 dbW
          ({ title := "Chola Bhatura", time_minutes := 90, price := 170,
             link := "", description := "d", steps := "s",
             tags := ["Dessert", "Breakfast"],
             ingredients := ["Garlic"] } : CreateData)).1 = some r' ∧
      (∀ n, n ∈ detailTagNames
          (RecipeSerializer.create 1 dbW
            ({ title := "Chola Bhatura", time_minutes := 90, price := 170,
               link := "", description := "d", steps := "s",
               tags := ["Dessert", "Breakfast"],
               ingredients := ["Garlic"] } : CreateData)).2 r'
          ↔ n ∈ ["Dessert", "Breakfast"]) ∧
      (∀ n, n ∈ detailIngredientNames
          (RecipeSerializer.create 1 dbW
            ({ title := "Chola Bhatura", time_minutes := 90, price := 170,
               link := "", description := "d", steps := "s",
               tags := ["Dessert", "Breakfast"],
               ingredients := ["Garlic"] } : CreateData)).2 r'
          ↔ n ∈ ["Garlic"])) :=
  ⟨by decide,
    C6_create_roundtrip dbW 1
      ({ title := "Chola Bhatura", time_minutes := 90, price := 170,
         link := "", description := "d", steps := "s",
         tags := ["Dessert", "Breakfast"],
         ingredients := ["Garlic"] } : CreateData)
      (by decide)⟩

/-- Witness for C7: filtering the sample database by tag ids `[0, 3]` and by
ingredient ids `[5]`. -/
theorem C7_recipe_filtering_witness :
    WF dbW ∧
    ((∀ r, r ∈ listRecipesFiltered dbW 1 (some [0, 3]) none ↔
        r ∈ dbW.recipes ∧ r.user = 1 ∧ ∃ tid ∈ r.tags, tid ∈ [0, 3]) ∧
      (∀ r ∈ listRecipesFiltered dbW 1 (some [0, 3]) none,
        (listRecipesFiltered dbW 1 (some [0, 3]) none).count r = 1) ∧
      (∀ r, r ∈ listRecipesFiltered dbW 1 none (some [5]) ↔
        r ∈ dbW.recipes ∧ r.user = 1 ∧ ∃ iid ∈ r.ingredients, iid ∈ [5]) ∧
      (∀ r ∈ listRecipesFiltered dbW 1 none (some [5]),
        (listRecipesFiltered dbW 1 none (some [5])).count r = 1)) :=
  ⟨by decide, C7_recipe_filtering dbW 1 [0, 3] [5] (by decide)⟩

/-- Witness for C8: the email `Test2@Example.COM` from the model tests. -/
theorem C8_email_normalization_witness :
    '@' ∉ "Example.COM".toList ∧
    (∃ usr db', create_user dbW ("Test2".toList ++ '@' :: "Example.COM".toList)
        = .ok (usr, db') ∧
      usr.email = "Test2".toList ++ '@' :: ("Example.COM".toList.map Char.toLower) ∧
      usr ∈ db'.users) :=
  ⟨by decide,
    C8_email_normalization dbW "Test2".toList "Example.COM".toList (by decide)⟩

/-- Witness for C10: the duplicated tag name `Indian` inside the submitted
lists, against the sample database. -/
theorem C10_duplicate_descriptors_witness :
    WF dbW ∧ "Indian" ∈ ["Indian"] ∧
    ((∀ vd : UpdateData, vd.tags = some (["Indian"] ++ "Indian" :: ["veg"]) →
        RecipeSerializer.update 1 dbW 0 vd
          = RecipeSerializer.update 1 dbW 0
              { vd with tags := some (["Indian"] ++ ["veg"]) }) ∧
      (∀ vd : UpdateData, vd.ingredients = some (["Indian"] ++ "Indian" :: ["veg"]) →
        RecipeSerializer.update 1 dbW 0 vd
          = RecipeSerializer.update 1 dbW 0
              { vd with ingredients := some (["Indian"] ++ ["veg"]) }) ∧
      (∀ cd : CreateData, cd.tags = ["Indian"] ++ "Indian" :: ["veg"] →
        RecipeSerializer.create 1 dbW cd
          = RecipeSerializer.create 1 dbW { cd with tags := ["Indian"] ++ ["veg"] }) ∧
      (∀ cd : CreateData, cd.ingredients = ["Indian"] ++ "Indian" :: ["veg"] →
        RecipeSerializer.create 1 dbW cd
          = RecipeSerializer.create 1 dbW
              { cd with ingredients := ["Indian"] ++ ["veg"] }) ∧
      (∀ ns, "Indian" ∈ ns →
        ((RecipeSerializer.get_or_create_tags 1 0 dbW ns).tags.countP
            (fun t => t.user == 1 && t.name == "Indian")) = 1) ∧
      (∀ ns, "Indian" ∈ ns →
        ((RecipeSerializer.get_or_create_ingredients 1 0 dbW ns).ingredients.countP
            (fun t => t.user == 1 && t.name == "Indian")) = 1)) :=
  ⟨by decide, by decide,
    C10_duplicate_descriptors dbW 1 0 ["Indian"] ["veg"] "Indian"
      (by decide) (by decide)⟩

end RecipeApp
